import Mathlib

/-!
Verification development for a task/user CRUD service backed by a document
store.  Tasks carry a direct reference to their assigned user
(`assignedUser`, empty string meaning unassigned) together with a cached
display name; users carry a materialized list `pendingTasks` of identifiers
of tasks assigned to them and not yet completed.  The definitions below are
a shallow embedding of the route handlers in `routes/tasks.js` and
`routes/users.js`: the document store is an explicit pair of record lists,
`findByIdAndUpdate` with `$addToSet` / `$pull` becomes an in-place map over
the user list, and each handler is a pure function from the incoming state
and request body to a response paired with the outgoing state.  Identifier
cast failures raised by the store driver inside `findById` are modelled for
the single-record GET handlers (where the routes catch them and answer);
elsewhere identifiers are taken as given.
-/

namespace TaskUserApp

/-- Task record as stored: `models/task.js` (deadline kept as an integer
timestamp; `dateCreated` is never read by the handlers and is omitted). -/
structure Task where
  id : String
  name : String
  description : String
  deadline : Int
  completed : Bool
  assignedUser : String
  assignedUserName : String
deriving Repr, DecidableEq

/-- User record as stored: `models/user.js` (name, unique email, and the
materialized list of pending task identifiers). -/
structure User where
  id : String
  name : String
  email : String
  pendingTasks : List String
deriving Repr, DecidableEq

/-- The document store: one collection per record kind. -/
structure St where
  tasks : List Task
  users : List User
deriving Repr, DecidableEq

/-- Response of a single-record handler: 200, 201, 404, 400 or 500 as in the
`ok` / `created` / `notFound` / `badRequest` / `serverError` helpers. -/
inductive Resp (α : Type) where
  | ok (data : α)
  | created (data : α)
  | notFound
  | invalidArgument (msg : String)
  | serverError
deriving Repr, DecidableEq

/-- Request body for POST/PUT on tasks.  `deadline` is `none` when the field
is missing, falsy, or does not parse to a valid date; `completed` is `none`
unless the body carried an actual boolean; `assignedUser` is the supplied
string, with the empty string standing for a missing or falsy field. -/
structure TaskInput where
  name : String
  description : String
  deadline : Option Int
  completed : Option Bool
  assignedUser : String
deriving Repr, DecidableEq

/-- Request body for POST/PUT on users.  `pendingTasks` is `none` when the
field is missing or not an array (the handlers test `Array.isArray`). -/
structure UserInput where
  name : String
  email : String
  pendingTasks : Option (List String)
deriving Repr, DecidableEq

/-- Whitespace-trimming of `String.prototype.trim`, written over the
character list so that it evaluates inside the kernel. -/
def strTrim (s : String) : String :=
  ⟨((s.toList.dropWhile Char.isWhitespace).reverse.dropWhile Char.isWhitespace).reverse⟩

/-- Lower-casing of `String.prototype.toLowerCase`, written over the
character list so that it evaluates inside the kernel. -/
def strLower (s : String) : String :=
  ⟨s.toList.map Char.toLower⟩

/-- Find a task by identifier (`Task.findById`). -/
def findTask (st : St) (id : String) : Option Task :=
  st.tasks.find? (fun t => t.id == id)

/-- Find a user by identifier (`User.findById`). -/
def findUser (st : St) (id : String) : Option User :=
  st.users.find? (fun u => u.id == id)

/-- Pending list of the user with the given identifier, `[]` when absent. -/
def pendingOf (st : St) (uid : String) : List String :=
  match findUser st uid with
  | some u => u.pendingTasks
  | none => []

/-- Add an element to a pending list if absent (`$addToSet`). -/
def pushPending (tid : String) (u : User) : User :=
  if u.pendingTasks.contains tid then u
  else { u with pendingTasks := u.pendingTasks ++ [tid] }

/-- Remove every occurrence of an element from a pending list (`$pull`). -/
def pullPending (tid : String) (u : User) : User :=
  { u with pendingTasks := u.pendingTasks.filter (fun x => x != tid) }

/-- Helper `addPendingToUser(userId, taskId)`: no-op on a falsy user id,
otherwise `$addToSet` on that user's pendingTasks. -/
def addPendingToUser (st : St) (uid tid : String) : St :=
  if uid = "" then st
  else { st with users := st.users.map (fun u => if u.id = uid then pushPending tid u else u) }

/-- Helper `removePendingFromUser(userId, taskId)`: no-op on a falsy user
id, otherwise `$pull` on that user's pendingTasks. -/
def removePendingFromUser (st : St) (uid tid : String) : St :=
  if uid = "" then st
  else { st with users := st.users.map (fun u => if u.id = uid then pullPending tid u else u) }

/-- Persist a (possibly mutated) task document: replace the stored record
with the same identifier (`task.save()`). -/
def saveTask (st : St) (t : Task) : St :=
  { st with tasks := st.tasks.map (fun x => if x.id = t.id then t else x) }

/-- Identifier accepted by the store driver's ObjectId cast: a 24-character
hex string (or a 12-character string).  `findById` on anything else throws,
which the GET routes catch. -/
def isValidId (s : String) : Bool :=
  (s.length == 24 && s.toList.all (fun c =>
      c.isDigit || (decide ('a' ≤ c) && decide (c ≤ 'f')) || (decide ('A' ≤ c) && decide (c ≤ 'F'))))
    || s.length == 12

/-- Outcome of reading one optional JSON-encoded query parameter:
missing, present but unparseable, or parsed to a value. -/
inductive Param (α : Type) where
  | absent
  | malformed
  | parsed (value : α)

/-- Parsed value of a parameter, when there is one. -/
def Param.toOption : Param α → Option α
  | .parsed a => some a
  | _ => none

/-- Inject an optional parsed value into a well-formed parameter. -/
def Param.ofOption : Option α → Param α
  | some a => .parsed a
  | none => .absent

/-- Response of a list handler: a page of records, a cardinality, or an
error. -/
inductive ListResp (α : Type) where
  | items (l : List α)
  | cnt (n : Nat)
  | invalidArgument (msg : String)
  | serverError
deriving Repr, DecidableEq

/-- Generic list request: the raw `where` / `sort` / `select` JSON
parameters after the parse attempt, the `skip` and `limit` parameters after
`parseInt` (outer `none` = missing or falsy, inner `none` = NaN), and the
raw `count` parameter. -/
structure ListQuery (α : Type) where
  whereParam : Param (α → Bool)
  sortParam : Param (α → α → Bool)
  selectParam : Param (α → α)
  skipParam : Option (Option Int)
  limitParam : Option (Option Int)
  countParam : Option String

/-- The `toBool` helper applied to a query-string value. -/
def toBool (v : Option String) : Bool :=
  match v with
  | some s => strLower s == "true"
  | none => false

/-- Execute a find with filter, sort, skip, limit and projection, in the
store's evaluation order.  Sorting is modelled by a stable merge sort on the
parsed comparator; `limit 0` means no limit, as in the store. -/
def applyQuery (records : List α) (w : Option (α → Bool)) (srt : Option (α → α → Bool))
    (sel : Option (α → α)) (skip : Option Int) (lim : Option Int) : List α :=
  let l := match w with | some p => records.filter p | none => records
  let l := match srt with | some r => l.mergeSort r | none => l
  let l := match skip with | some n => l.drop n.toNat | none => l
  let l := match lim with | some n => if n = 0 then l else l.take n.natAbs | none => l
  match sel with | some f => l.map f | none => l

/-- GET `/tasks`: parse the three JSON parameters in order, defaulting the
limit to 100 when count-only is off and no numeric limit was supplied; a
count-only request answers the filtered cardinality.  The second component
records which store operations ran. -/
def listTasks (st : St) (q : ListQuery Task) : ListResp Task × List String :=
  match q.whereParam, q.sortParam, q.selectParam with
  | .malformed, _, _ => (.invalidArgument "Invalid JSON in where parameter", [])
  | _, .malformed, _ => (.invalidArgument "Invalid JSON in sort parameter", [])
  | _, _, .malformed => (.invalidArgument "Invalid JSON in select parameter", [])
  | w, srt, sel =>
    let skip : Option Int := match q.skipParam with | some (some n) => some n | _ => none
    let lim0 : Option Int := match q.limitParam with | some (some n) => some n | _ => none
    let count := toBool q.countParam
    let lim : Option Int := if count = false ∧ lim0 = none then some 100 else lim0
    if count then
      (.cnt (match w.toOption with
        | some p => (st.tasks.filter p).length
        | none => st.tasks.length), ["count"])
    else
      (.items (applyQuery st.tasks w.toOption srt.toOption sel.toOption skip lim), ["find"])

/-- GET `/users`: identical to the task listing except that no default limit
is applied when the caller supplied none. -/
def listUsers (st : St) (q : ListQuery User) : ListResp User × List String :=
  match q.whereParam, q.sortParam, q.selectParam with
  | .malformed, _, _ => (.invalidArgument "Invalid JSON in where parameter", [])
  | _, .malformed, _ => (.invalidArgument "Invalid JSON in sort parameter", [])
  | _, _, .malformed => (.invalidArgument "Invalid JSON in select parameter", [])
  | w, srt, sel =>
    let skip : Option Int := match q.skipParam with | some (some n) => some n | _ => none
    let lim : Option Int := match q.limitParam with | some (some n) => some n | _ => none
    let count := toBool q.countParam
    if count then
      (.cnt (match w.toOption with
        | some p => (st.users.filter p).length
        | none => st.users.length), ["count"])
    else
      (.items (applyQuery st.users w.toOption srt.toOption sel.toOption skip lim), ["find"])

/-- GET `/tasks/:id`: a malformed select parameter answers 400; a malformed
identifier makes `findById` throw and the catch answers 400 "Invalid task
id"; an absent record answers 404. -/
def getTask (st : St) (id : String) (sel : Param (Task → Task)) : Resp Task :=
  match sel with
  | .malformed => .invalidArgument "Invalid JSON in select parameter"
  | s =>
    if isValidId id then
      match findTask st id with
      | none => .notFound
      | some t =>
        match s.toOption with
        | some f => .ok (f t)
        | none => .ok t
    else .invalidArgument "Invalid task id"

/-- GET `/users/:id`: same shape as the task handler, except that the catch
for a malformed identifier answers 404 (its 400 response is commented out in
the source). -/
def getUser (st : St) (id : String) (sel : Param (User → User)) : Resp User :=
  match sel with
  | .malformed => .invalidArgument "Invalid JSON in select parameter"
  | s =>
    if isValidId id then
      match findUser st id with
      | none => .notFound
      | some u =>
        match s.toOption with
        | some f => .ok (f u)
        | none => .ok u
    else .notFound

/-- POST `/tasks`: validate name and deadline, resolve the assigned user
when one was supplied (400 when it does not exist), persist the task, then
adjust the owner's pending set: add when not completed, remove when
completed.  `freshId` is the store-generated identifier of the new record. -/
def taskCreate (st : St) (freshId : String) (b : TaskInput) : Resp Task × St :=
  let name := strTrim b.name
  if name = "" ∨ b.deadline = none then
    (.invalidArgument "Task must have a valid name and deadline", st)
  else
    let completed := b.completed.getD false
    let assignedUser := b.assignedUser
    let ownerLookup : Option User := if assignedUser = "" then none else findUser st assignedUser
    if assignedUser ≠ "" ∧ ownerLookup = none then
      (.invalidArgument "Assigned user does not exist", st)
    else
      let assignedUserName := match ownerLookup with
        | some u => u.name
        | none => "unassigned"
      let task : Task :=
        { id := freshId, name := name, description := b.description,
          deadline := b.deadline.getD 0, completed := completed,
          assignedUser := assignedUser, assignedUserName := assignedUserName }
      let st1 : St := { st with tasks := st.tasks ++ [task] }
      let st2 :=
        if assignedUser ≠ "" then
          if completed = false then addPendingToUser st1 assignedUser freshId
          else removePendingFromUser st1 assignedUser freshId
        else st1
      (.created ((findTask st2 freshId).getD task), st2)

/-- PUT `/tasks/:id`: validate name and deadline, fetch the task (404 when
absent), capture the previous (owner, completed) pair, mutate the in-memory
document, resolve a supplied assigned user (400 and no write when it does
not exist), save, then run the three pending-set adjustment blocks of the
handler in order. -/
def taskUpdate (st : St) (id : String) (b : TaskInput) : Resp Task × St :=
  let name := strTrim b.name
  if name = "" ∨ b.deadline = none then
    (.invalidArgument "Task must have a valid name and deadline", st)
  else
    match findTask st id with
    | none => (.notFound, st)
    | some task =>
      let prevAssignedUser := task.assignedUser
      let prevCompleted := task.completed
      let base : Task :=
        { task with
          name := name, description := b.description,
          deadline := b.deadline.getD 0, completed := b.completed.getD false }
      let resolved : Option Task :=
        if b.assignedUser = "" then
          some { base with assignedUser := "", assignedUserName := "unassigned" }
        else
          match findUser st b.assignedUser with
          | none => none
          | some u => some { base with assignedUser := u.id, assignedUserName := u.name }
      match resolved with
      | none => (.invalidArgument "Assigned user does not exist", st)
      | some t2 =>
        let st1 := saveTask st t2
        let newCompleted := t2.completed
        let newAssignedUser := t2.assignedUser
        let st2 :=
          if prevAssignedUser ≠ "" ∧ prevAssignedUser ≠ newAssignedUser then
            removePendingFromUser st1 prevAssignedUser t2.id
          else st1
        let st3 :=
          if newAssignedUser ≠ "" then
            if newCompleted = false then addPendingToUser st2 newAssignedUser t2.id
            else removePendingFromUser st2 newAssignedUser t2.id
          else st2
        let st4 :=
          if prevAssignedUser ≠ "" ∧ prevAssignedUser = newAssignedUser then
            if prevCompleted = false ∧ newCompleted = true then
              removePendingFromUser st3 newAssignedUser t2.id
            else if prevCompleted = true ∧ newCompleted = false then
              addPendingToUser st3 newAssignedUser t2.id
            else st3
          else st3
        (.ok ((findTask st4 t2.id).getD t2), st4)

/-- DELETE `/tasks/:id`: fetch (404 when absent), delete the record, then
pull its identifier from the previous owner's pending set when it had one. -/
def taskDelete (st : St) (id : String) : Resp Unit × St :=
  match findTask st id with
  | none => (.notFound, st)
  | some task =>
    let st1 : St := { st with tasks := st.tasks.filter (fun t => t.id != task.id) }
    let st2 :=
      if task.assignedUser ≠ "" then removePendingFromUser st1 task.assignedUser task.id
      else st1
    (.ok (), st2)

/-- Claim one task for the user with identifier `uid` and display name
`uname`: pull the task from its current owner when that owner is a different
user, point the task at `uid`, save it, and set its membership in `uid`'s
pending set from the completion flag.  This is the body of the
`tasks.map(...)` loops of POST `/users` and PUT `/users/:id`. -/
def claimStep (s : St) (uid uname : String) (t : Task) : St :=
  let s1 :=
    if t.assignedUser ≠ "" ∧ t.assignedUser ≠ uid then
      removePendingFromUser s t.assignedUser t.id
    else s
  let s2 := saveTask s1 { t with assignedUser := uid, assignedUserName := uname }
  if t.completed = false then addPendingToUser s2 uid t.id
  else removePendingFromUser s2 uid t.id

/-- POST `/users`: validate name and email, reject a duplicate email,
persist the user with an empty pending set, then claim every existing task
named in the requested pending list for the new user. -/
def userCreate (st : St) (freshId : String) (b : UserInput) : Resp User × St :=
  let name := strTrim b.name
  let email := strLower (strTrim b.email)
  if name = "" ∨ email = "" then (.invalidArgument "User must have name and email", st)
  else if (st.users.find? (fun u => u.email == email)).isSome then
    (.invalidArgument "A user with this email already exists", st)
  else
    let pendingTasks := b.pendingTasks.getD []
    let user : User := { id := freshId, name := name, email := email, pendingTasks := [] }
    let st1 : St := { st with users := st.users ++ [user] }
    let claimed := st1.tasks.filter (fun t => pendingTasks.contains t.id)
    let st2 := claimed.foldl (fun s t => claimStep s freshId name t) st1
    (.created ((findUser st2 freshId).getD user), st2)

/-- Unassign one task and pull it from the pending set of the user with
identifier `uid`: the body of the `removedTasks.map(...)` loop of PUT
`/users/:id`. -/
def unassignStep (s : St) (uid : String) (t : Task) : St :=
  let s1 := saveTask s { t with assignedUser := "", assignedUserName := "unassigned" }
  removePendingFromUser s1 uid t.id

/-- PUT `/users/:id`: validate name and email, fetch the user (404 when
absent), reject an email belonging to a different user, compute the
requested pending list (empty when missing or not an array) and its
symmetric difference against the stored list, unassign the removed tasks,
claim the added tasks, and finally persist the user record with the
requested pending list verbatim. -/
def userUpdate (st : St) (id : String) (b : UserInput) : Resp User × St :=
  let name := strTrim b.name
  let email := strLower (strTrim b.email)
  if name = "" ∨ email = "" then (.invalidArgument "User must have name and email", st)
  else
    match findUser st id with
    | none => (.notFound, st)
    | some user =>
      let dupeConflict : Bool :=
        match st.users.find? (fun u => u.email == email) with
        | some d => d.id != user.id
        | none => false
      match dupeConflict with
      | true => (.invalidArgument "A user with this email already exists", st)
      | false =>
        let newPending := b.pendingTasks.getD []
        let prevPending := user.pendingTasks
        let toRemove := prevPending.filter (fun tid => !(newPending.contains tid))
        let toAdd := newPending.filter (fun tid => !(prevPending.contains tid))
        let removedTasks := st.tasks.filter (fun t => toRemove.contains t.id)
        let stA := removedTasks.foldl (fun s t => unassignStep s user.id t) st
        let addedTasks := stA.tasks.filter (fun t => toAdd.contains t.id)
        let stB := addedTasks.foldl (fun s t => claimStep s user.id name t) stA
        let stC : St :=
          { stB with users := stB.users.map (fun u =>
              if u.id = user.id then { u with name := name, email := email, pendingTasks := newPending }
              else u) }
        (.ok ((findUser stC user.id).getD user), stC)

/-- DELETE `/users/:id`: fetch (404 when absent), unassign every task named
in the user's pending set, then delete the user record. -/
def userDelete (st : St) (id : String) : Resp Unit × St :=
  match findUser st id with
  | none => (.notFound, st)
  | some user =>
    let pending := user.pendingTasks
    let owned := st.tasks.filter (fun t => pending.contains t.id)
    let st1 := owned.foldl
      (fun s t => saveTask s { t with assignedUser := "", assignedUserName := "unassigned" }) st
    let st2 : St := { st1 with users := st1.users.filter (fun u => u.id != user.id) }
    (.ok (), st2)

/-- Justification invariant of the denormalized relation: every membership
of a task identifier in some user's pending set is backed by that task being
assigned to exactly that user and not completed.  It implies I2 and I3. -/
def GoodSt (st : St) : Prop :=
  ∀ t ∈ st.tasks, ∀ u ∈ st.users, t.id ∈ u.pendingTasks →
    t.assignedUser = u.id ∧ t.completed = false

/-- Structural well-formedness of a store state: record identifiers are
unique per collection and user identifiers are non-empty. -/
def WfSt (st : St) : Prop :=
  (st.tasks.map Task.id).Nodup ∧ (st.users.map User.id).Nodup ∧ ∀ u ∈ st.users, u.id ≠ ""

/-- Combined inductive invariant. -/
def InvSt (st : St) : Prop := WfSt st ∧ GoodSt st

/-- Invariant I2 of the specification: a task that is unassigned or
completed appears in no user's pending set. -/
def I2 (st : St) : Prop :=
  ∀ t ∈ st.tasks, (t.assignedUser = "" ∨ t.completed = true) →
    ∀ u ∈ st.users, t.id ∉ u.pendingTasks

/-- One mutation request, together with the store-generated identifier for
the create operations. -/
inductive Mut where
  | tCreate (freshId : String) (b : TaskInput)
  | tUpdate (id : String) (b : TaskInput)
  | tDelete (id : String)
  | uCreate (freshId : String) (b : UserInput)
  | uUpdate (id : String) (b : UserInput)
  | uDelete (id : String)
deriving Repr

/-- State reached after one mutation request completes. -/
def applyMut (st : St) : Mut → St
  | .tCreate freshId b => (taskCreate st freshId b).2
  | .tUpdate id b => (taskUpdate st id b).2
  | .tDelete id => (taskDelete st id).2
  | .uCreate freshId b => (userCreate st freshId b).2
  | .uUpdate id b => (userUpdate st id b).2
  | .uDelete id => (userDelete st id).2

/-- Side condition of one mutation: store-generated identifiers of created
records are fresh (and non-empty for users), and a user update does not
request a pending list naming an existing completed task. -/
def mutOK (st : St) : Mut → Prop
  | .tCreate freshId _ =>
      freshId ∉ st.tasks.map Task.id ∧ ∀ u ∈ st.users, freshId ∉ u.pendingTasks
  | .tUpdate _ _ => True
  | .tDelete _ => True
  | .uCreate freshId _ => freshId ≠ "" ∧ freshId ∉ st.users.map User.id
  | .uUpdate _ b => ∀ t ∈ st.tasks, t.id ∈ b.pendingTasks.getD [] → t.completed = false
  | .uDelete _ => True

/-- State after a sequence of mutation requests. -/
def applySeq (st : St) : List Mut → St
  | [] => st
  | m :: ms => applySeq (applyMut st m) ms

/-- All side conditions hold along a sequence of mutation requests. -/
def okSeq (st : St) : List Mut → Prop
  | [] => True
  | m :: ms => mutOK st m ∧ okSeq (applyMut st m) ms

instance (st : St) : Decidable (GoodSt st) := by unfold GoodSt; exact inferInstance

instance (st : St) : Decidable (WfSt st) := by unfold WfSt; exact inferInstance

instance (st : St) : Decidable (InvSt st) := by unfold InvSt; exact inferInstance

instance (st : St) : Decidable (I2 st) := by unfold I2; exact inferInstance

instance (st : St) (m : Mut) : Decidable (mutOK st m) := by
  cases m <;> (unfold mutOK; exact inferInstance)

instance instDecOkSeq : (st : St) → (ms : List Mut) → Decidable (okSeq st ms)
  | _, [] => .isTrue (by unfold okSeq; trivial)
  | st, m :: ms =>
    haveI := instDecOkSeq (applyMut st m) ms
    by unfold okSeq; exact inferInstance

/-- Task value after being claimed for a user. -/
def claimTaskOf (uid uname : String) (t : Task) : Task :=
  { t with assignedUser := uid, assignedUserName := uname }

/-- Task value after being unassigned. -/
def unassignTaskOf (t : Task) : Task :=
  { t with assignedUser := "", assignedUserName := "unassigned" }

/-- Pointwise effect of `claimStep` on one stored task. -/
def claimTaskT (uid uname : String) (t x : Task) : Task :=
  if x.id = t.id then claimTaskOf uid uname t else x

/-- Pointwise effect of `claimStep` on one stored user. -/
def claimUserT (uid : String) (t : Task) (u : User) : User :=
  let u1 :=
    if t.assignedUser ≠ "" ∧ t.assignedUser ≠ uid ∧ u.id = t.assignedUser then
      pullPending t.id u
    else u
  if uid ≠ "" ∧ u.id = uid then
    if t.completed = false then pushPending t.id u1 else pullPending t.id u1
  else u1

/-- Pointwise effect of `unassignStep` on one stored task. -/
def unassignTaskT (t x : Task) : Task :=
  if x.id = t.id then unassignTaskOf t else x

/-- Discriminator for the 400 response kind. -/
def Resp.isInvalidArgument : Resp α → Bool
  | .invalidArgument _ => true
  | _ => false

/-- Example user Alice, holding the open task below. -/
def exUserA : User :=
  { id := "u1", name := "Alice", email := "alice@example.com", pendingTasks := ["t2"] }

/-- Example user Bob with an empty pending set. -/
def exUserB : User :=
  { id := "u2", name := "Bob", email := "bob@example.com", pendingTasks := [] }

/-- Example completed, unassigned task. -/
def exTaskDone : Task :=
  { id := "t1", name := "Ship", description := "", deadline := 10, completed := true,
    assignedUser := "", assignedUserName := "unassigned" }

/-- Example open task assigned to Alice. -/
def exTaskOpen : Task :=
  { id := "t2", name := "Plan", description := "", deadline := 20, completed := false,
    assignedUser := "u1", assignedUserName := "Alice" }

/-- Example store state satisfying the invariants. -/
def exSt : St := { tasks := [exTaskDone, exTaskOpen], users := [exUserA, exUserB] }

/-- List request whose filter parameter is present but unparseable. -/
def exBadTaskQuery : ListQuery Task :=
  { whereParam := Param.malformed, sortParam := Param.absent, selectParam := Param.absent,
    skipParam := none, limitParam := none, countParam := none }

/-- User-side list request whose filter parameter is present but unparseable. -/
def exBadUserQuery : ListQuery User :=
  { whereParam := Param.malformed, sortParam := Param.absent, selectParam := Param.absent,
    skipParam := none, limitParam := none, countParam := none }

/-- Requested user-update body used in the example theorems: renames the
user and requests a pending list naming one unknown identifier. -/
def exC5Input : UserInput :=
  { name := "Alicia", email := "alicia@example.com", pendingTasks := some ["t9", "t2"] }

/-- Task-update body used in the example theorems: reassigns the open task
to Bob. -/
def exC4Input : TaskInput :=
  { name := "Plan", description := "", deadline := some 20, completed := some false,
    assignedUser := "u2" }

/-- User-update body with the pendingTasks field omitted. -/
def exC9Input : UserInput :=
  { name := "Alice", email := "alice@example.com", pendingTasks := none }

/-- User-creation body naming one unknown task identifier. -/
def exC10Input : UserInput :=
  { name := "Carol", email := "carol@example.com", pendingTasks := some ["zz", "t2"] }

attribute [ext] St

/-- Pointwise effect of `unassignStep` on one stored user. -/
def unassignUserT (uid : String) (t : Task) (u : User) : User :=
  if uid ≠ "" ∧ u.id = uid then pullPending t.id u else u

/-- Final state of a successful user update in map form: both folds of the
handler pushed pointwise onto each stored record (derived below in
`userUpdate_success_eq`). -/
def uuFinal (st : St) (b : UserInput) (u0 : User) : St :=
  let name := strTrim b.name
  let email := strLower (strTrim b.email)
  let newPending := b.pendingTasks.getD []
  let toRemove := u0.pendingTasks.filter (fun tid => !(newPending.contains tid))
  let toAdd := newPending.filter (fun tid => !(u0.pendingTasks.contains tid))
  let removedTasks := st.tasks.filter (fun t => toRemove.contains t.id)
  let remT := fun (a : Task) => removedTasks.foldl (fun a x => unassignTaskT x a) a
  let remU := fun (a : User) => removedTasks.foldl (fun a x => unassignUserT u0.id x a) a
  let addedTasks := (st.tasks.map remT).filter (fun t => toAdd.contains t.id)
  let claT := fun (a : Task) => addedTasks.foldl (fun a x => claimTaskT u0.id name x a) a
  let claU := fun (a : User) => addedTasks.foldl (fun a x => claimUserT u0.id x a) a
  { tasks := (st.tasks.map remT).map claT,
    users := ((st.users.map remU).map claU).map
      (fun u => if u.id = u0.id then
          { u with name := name, email := email, pendingTasks := newPending } else u) }

/-- Final state of a successful user creation in map form (derived below in
`userCreate_success_eq`). -/
def ucFinal (st : St) (freshId : String) (b : UserInput) : St :=
  let name := strTrim b.name
  let pendingTasks := b.pendingTasks.getD []
  let user : User :=
    { id := freshId, name := name, email := strLower (strTrim b.email), pendingTasks := [] }
  let claimed := st.tasks.filter (fun t => pendingTasks.contains t.id)
  let claT := fun (a : Task) => claimed.foldl (fun a x => claimTaskT freshId name x a) a
  let claU := fun (a : User) => claimed.foldl (fun a x => claimUserT freshId x a) a
  { tasks := st.tasks.map claT,
    users := (st.users ++ [user]).map claU }

/-- Final state of a successful user deletion in map form (derived below in
`userDelete_success_eq`). -/
def udFinal (st : St) (u0 : User) : St :=
  let owned := st.tasks.filter (fun t => u0.pendingTasks.contains t.id)
  { tasks := st.tasks.map (fun a => owned.foldl (fun a x => unassignTaskT x a) a),
    users := st.users.filter (fun u => u.id != u0.id) }

/-- Task record built by a successful creation with a resolved owner name. -/
def tcTask (fid : String) (b : TaskInput) (uname : String) : Task :=
  { id := fid, name := strTrim b.name, description := b.description,
    deadline := b.deadline.getD 0, completed := b.completed.getD false,
    assignedUser := b.assignedUser, assignedUserName := uname }

/-- Final state of a successful task creation (derived below in
`taskCreate_success_eq`). -/
def tcFinal (st : St) (fid : String) (b : TaskInput) (uname : String) : St :=
  let st1 : St := { st with tasks := st.tasks ++ [tcTask fid b uname] }
  if b.completed.getD false = false then addPendingToUser st1 b.assignedUser fid
  else removePendingFromUser st1 b.assignedUser fid

/-- Task record built by a successful update from the previous record and a
resolved owner. -/
def tuTask (t0 : Task) (b : TaskInput) (owner ownerName : String) : Task :=
  { t0 with
    name := strTrim b.name, description := b.description,
    deadline := b.deadline.getD 0, completed := b.completed.getD false,
    assignedUser := owner, assignedUserName := ownerName }

/-- Final state of a successful task update: save, then the three
pending-set adjustment blocks (derived below in `taskUpdate_success_eq`). -/
def tuFinal (st : St) (t0 t2 : Task) : St :=
  let st1 := saveTask st t2
  let st2 :=
    if t0.assignedUser ≠ "" ∧ t0.assignedUser ≠ t2.assignedUser then
      removePendingFromUser st1 t0.assignedUser t2.id
    else st1
  let st3 :=
    if t2.assignedUser ≠ "" then
      if t2.completed = false then addPendingToUser st2 t2.assignedUser t2.id
      else removePendingFromUser st2 t2.assignedUser t2.id
    else st2
  if t0.assignedUser ≠ "" ∧ t0.assignedUser = t2.assignedUser then
    if t0.completed = false ∧ t2.completed = true then
      removePendingFromUser st3 t2.assignedUser t2.id
    else if t0.completed = true ∧ t2.completed = false then
      addPendingToUser st3 t2.assignedUser t2.id
    else st3
  else st3

/-- Final state of a successful task deletion (derived below in
`taskDelete_success_eq`). -/
def tdFinal (st : St) (t0 : Task) : St :=
  let st1 : St := { st with tasks := st.tasks.filter (fun t => t.id != t0.id) }
  if t0.assignedUser ≠ "" then removePendingFromUser st1 t0.assignedUser t0.id else st1


@[simp] theorem pushPending_id (tid : String) (u : User) : (pushPending tid u).id = u.id := by
  unfold pushPending; split <;> rfl

@[simp] theorem pullPending_id (tid : String) (u : User) : (pullPending tid u).id = u.id := rfl

/-- User-update body naming the completed task `t1` in its requested
pending list. -/
def exC1Input : UserInput :=
  { name := "Alice", email := "alice@example.com", pendingTasks := some ["t1", "t2"] }

/-- A completed mutation sequence over the example store touching all six
handlers: create a task for Bob, move it into Alice's requested pending
list, complete it by a task update, create a second user claiming the open
task, delete the completed example task and delete Bob. -/
def exC1Muts : List Mut :=
  [ Mut.tCreate "t3"
      { name := "Prep", description := "", deadline := some 30,
        completed := some false, assignedUser := "u2" },
    Mut.uUpdate "u1"
      { name := "Alice", email := "alice@example.com", pendingTasks := some ["t2", "t3"] },
    Mut.tUpdate "t3"
      { name := "Prep", description := "", deadline := some 30,
        completed := some true, assignedUser := "u1" },
    Mut.uCreate "u3"
      { name := "Carol", email := "carol@example.com", pendingTasks := some ["t2"] },
    Mut.tDelete "t1",
    Mut.uDelete "u2" ]

@[simp] theorem claimUserT_id (uid : String) (t : Task) (u : User) :
    (claimUserT uid t u).id = u.id := by
  unfold claimUserT
  have hu1 : (if t.assignedUser ≠ "" ∧ t.assignedUser ≠ uid ∧ u.id = t.assignedUser then
      pullPending t.id u else u).id = u.id := by
    split <;> rfl
  by_cases h2 : uid ≠ "" ∧ u.id = uid
  · rw [if_pos h2]
    by_cases h3 : t.completed = false
    · rw [if_pos h3, pushPending_id, hu1]
    · rw [if_neg h3, pullPending_id, hu1]
  · rw [if_neg h2, hu1]

@[simp] theorem unassignUserT_id (uid : String) (t : Task) (u : User) :
    (unassignUserT uid t u).id = u.id := by
  unfold unassignUserT; split <;> simp

@[simp] theorem claimTaskOf_id (uid uname : String) (t : Task) :
    (claimTaskOf uid uname t).id = t.id := rfl

@[simp] theorem unassignTaskOf_id (t : Task) : (unassignTaskOf t).id = t.id := rfl

@[simp] theorem claimTaskT_id (uid uname : String) (t x : Task) :
    (claimTaskT uid uname t x).id = x.id := by
  unfold claimTaskT; split
  · next h => simp [h]
  · rfl

@[simp] theorem unassignTaskT_id (t x : Task) : (unassignTaskT t x).id = x.id := by
  unfold unassignTaskT; split
  · next h => simp [h]
  · rfl

theorem mem_pushPending (tid z : String) (u : User) :
    z ∈ (pushPending tid u).pendingTasks ↔ (z ∈ u.pendingTasks ∨ z = tid) := by
  unfold pushPending
  split
  · next h =>
    constructor
    · exact Or.inl
    · rintro (hz | rfl)
      · exact hz
      · simpa using h
  · simp [List.mem_append]

theorem mem_pullPending (tid z : String) (u : User) :
    z ∈ (pullPending tid u).pendingTasks ↔ (z ∈ u.pendingTasks ∧ z ≠ tid) := by
  unfold pullPending
  simp [List.mem_filter]

theorem removePending_eq (st : St) (uid tid : String) :
    removePendingFromUser st uid tid =
      { st with users := st.users.map (fun u => if uid ≠ "" ∧ u.id = uid then pullPending tid u else u) } := by
  unfold removePendingFromUser
  by_cases h : uid = ""
  · simp [h, List.map_id']
  · simp [h]

theorem addPending_eq (st : St) (uid tid : String) :
    addPendingToUser st uid tid =
      { st with users := st.users.map (fun u => if uid ≠ "" ∧ u.id = uid then pushPending tid u else u) } := by
  unfold addPendingToUser
  by_cases h : uid = ""
  · simp [h, List.map_id']
  · simp [h]

theorem claimStep_eq (s : St) (uid uname : String) (t : Task) :
    claimStep s uid uname t =
      { tasks := s.tasks.map (claimTaskT uid uname t),
        users := s.users.map (claimUserT uid t) } := by
  unfold claimStep
  by_cases hA : t.assignedUser ≠ "" ∧ t.assignedUser ≠ uid
  · rw [if_pos hA, removePending_eq]
    by_cases hC : t.completed = false
    · rw [if_pos hC, addPending_eq]
      unfold saveTask
      refine St.ext ?_ ?_
      · exact List.map_congr_left (fun x _ => rfl)
      · rw [List.map_map]
        refine List.map_congr_left (fun u _ => ?_)
        simp only [Function.comp_apply]
        unfold claimUserT
        by_cases h1 : u.id = t.assignedUser
        · rw [if_pos (show t.assignedUser ≠ "" ∧ u.id = t.assignedUser from And.intro hA.1 h1),
            if_pos (show t.assignedUser ≠ "" ∧ t.assignedUser ≠ uid ∧ u.id = t.assignedUser from
              And.intro hA.1 (And.intro hA.2 h1))]
          simp [hC]
        · rw [if_neg (show ¬(t.assignedUser ≠ "" ∧ u.id = t.assignedUser) from
              fun hcon => h1 hcon.2),
            if_neg (show ¬(t.assignedUser ≠ "" ∧ t.assignedUser ≠ uid ∧ u.id = t.assignedUser) from
              fun hcon => h1 hcon.2.2)]
          simp [hC]
    · rw [if_neg hC, removePending_eq]
      unfold saveTask
      refine St.ext ?_ ?_
      · exact List.map_congr_left (fun x _ => rfl)
      · rw [List.map_map]
        refine List.map_congr_left (fun u _ => ?_)
        simp only [Function.comp_apply]
        unfold claimUserT
        by_cases h1 : u.id = t.assignedUser
        · rw [if_pos (show t.assignedUser ≠ "" ∧ u.id = t.assignedUser from And.intro hA.1 h1),
            if_pos (show t.assignedUser ≠ "" ∧ t.assignedUser ≠ uid ∧ u.id = t.assignedUser from
              And.intro hA.1 (And.intro hA.2 h1))]
          simp [hC]
        · rw [if_neg (show ¬(t.assignedUser ≠ "" ∧ u.id = t.assignedUser) from
              fun hcon => h1 hcon.2),
            if_neg (show ¬(t.assignedUser ≠ "" ∧ t.assignedUser ≠ uid ∧ u.id = t.assignedUser) from
              fun hcon => h1 hcon.2.2)]
          simp [hC]
  · rw [if_neg hA]
    by_cases hC : t.completed = false
    · rw [if_pos hC, addPending_eq]
      unfold saveTask
      refine St.ext ?_ ?_
      · exact List.map_congr_left (fun x _ => rfl)
      · refine List.map_congr_left (fun u _ => ?_)
        unfold claimUserT
        rw [if_neg (show ¬(t.assignedUser ≠ "" ∧ t.assignedUser ≠ uid ∧ u.id = t.assignedUser) from
          fun hcon => hA (And.intro hcon.1 hcon.2.1))]
        simp [hC]
    · rw [if_neg hC, removePending_eq]
      unfold saveTask
      refine St.ext ?_ ?_
      · exact List.map_congr_left (fun x _ => rfl)
      · refine List.map_congr_left (fun u _ => ?_)
        unfold claimUserT
        rw [if_neg (show ¬(t.assignedUser ≠ "" ∧ t.assignedUser ≠ uid ∧ u.id = t.assignedUser) from
          fun hcon => hA (And.intro hcon.1 hcon.2.1))]
        simp [hC]

theorem unassignStep_eq (s : St) (uid : String) (t : Task) :
    unassignStep s uid t =
      { tasks := s.tasks.map (unassignTaskT t),
        users := s.users.map (unassignUserT uid t) } := by
  unfold unassignStep
  rw [removePending_eq]
  unfold saveTask
  refine St.ext ?_ ?_
  · exact List.map_congr_left (fun x _ => rfl)
  · exact List.map_congr_left (fun u _ => rfl)

theorem foldl_pointwise {σ : Type} (step : St → σ → St) (ft : σ → Task → Task)
    (fu : σ → User → User)
    (hstep : ∀ s x, step s x = { tasks := s.tasks.map (ft x), users := s.users.map (fu x) })
    (l : List σ) (s : St) :
    l.foldl step s =
      { tasks := s.tasks.map (fun a => l.foldl (fun a x => ft x a) a),
        users := s.users.map (fun a => l.foldl (fun a x => fu x a) a) } := by
  induction l generalizing s with
  | nil => simp [List.map_id']
  | cons x xs ih =>
    simp only [List.foldl_cons]
    rw [hstep, ih]
    refine St.ext ?_ ?_
    · show (s.tasks.map _).map _ = _
      rw [List.map_map]
      rfl
    · show (s.users.map _).map _ = _
      rw [List.map_map]
      rfl

theorem foldl_replace_skip (g : Task → Task) (l : List Task) (x : Task)
    (h : ∀ t ∈ l, t.id ≠ x.id) :
    l.foldl (fun a t => if a.id = t.id then g t else a) x = x := by
  induction l with
  | nil => rfl
  | cons t ts ih =>
    simp only [List.foldl_cons]
    rw [if_neg (fun hc => h t (List.mem_cons_self t ts) hc.symm)]
    exact ih (fun t' ht' => h t' (List.mem_cons_of_mem t ht'))

theorem foldl_replace_eq (g : Task → Task) (hg : ∀ t, (g t).id = t.id)
    (l : List Task) (hl : (l.map Task.id).Nodup) (x : Task) :
    l.foldl (fun a t => if a.id = t.id then g t else a) x =
      (match l.find? (fun t => t.id == x.id) with
       | some t => g t
       | none => x) := by
  induction l with
  | nil => rfl
  | cons t ts ih =>
    simp only [List.foldl_cons]
    by_cases h : x.id = t.id
    · rw [if_pos h, List.find?_cons_of_pos _ (by simp [h.symm])]
      refine foldl_replace_skip g ts (g t) ?_
      intro t' ht' he
      refine (List.nodup_cons.mp hl).1 ?_
      have hii : t'.id = t.id := by rw [he, hg t]
      exact hii ▸ List.mem_map_of_mem Task.id ht'
    · rw [if_neg h, List.find?_cons_of_neg _ (by simpa using fun e : t.id = x.id => h e.symm)]
      exact ih (List.nodup_cons.mp hl).2

theorem foldl_userStep_id (F : Task → User → User) (hid : ∀ t u, (F t u).id = u.id)
    (l : List Task) (u : User) :
    (l.foldl (fun a t => F t a) u).id = u.id := by
  induction l generalizing u with
  | nil => rfl
  | cons t ts ih =>
    simp only [List.foldl_cons]
    rw [ih, hid]

theorem mem_foldl_userStep_skip (F : Task → User → User) (z : String)
    (hmem : ∀ t u, t.id ≠ z →
      (z ∈ (F t u).pendingTasks ↔ z ∈ u.pendingTasks))
    (l : List Task) (u : User) (h : ∀ t ∈ l, t.id ≠ z) :
    (z ∈ (l.foldl (fun a t => F t a) u).pendingTasks ↔ z ∈ u.pendingTasks) := by
  induction l generalizing u with
  | nil => exact Iff.rfl
  | cons t ts ih =>
    simp only [List.foldl_cons]
    rw [ih _ (fun t' ht' => h t' (List.mem_cons_of_mem t ht'))]
    exact hmem t u (h t (List.mem_cons_self t ts))

theorem mem_foldl_userStep (F : Task → User → User) (Φ : Task → User → Prop) (z : String)
    (hid : ∀ t u, (F t u).id = u.id)
    (hmem : ∀ t u, z ∈ (F t u).pendingTasks ↔
      (if t.id = z then Φ t u else z ∈ u.pendingTasks))
    (hcongr : ∀ t u v, u.id = v.id → (z ∈ u.pendingTasks ↔ z ∈ v.pendingTasks) →
      (Φ t u ↔ Φ t v))
    (l : List Task) (hl : (l.map Task.id).Nodup) (u : User) :
    z ∈ (l.foldl (fun a t => F t a) u).pendingTasks ↔
      (match l.find? (fun t => t.id == z) with
       | some t => Φ t u
       | none => z ∈ u.pendingTasks) := by
  induction l generalizing u with
  | nil => exact Iff.rfl
  | cons t ts ih =>
    simp only [List.foldl_cons]
    by_cases hz : t.id = z
    · rw [List.find?_cons_of_pos _ (by simp [hz])]
      have hskip : ∀ t' ∈ ts, t'.id ≠ z := by
        intro t' ht' he
        refine (List.nodup_cons.mp hl).1 ?_
        have : t'.id = t.id := by rw [he, hz]
        exact this ▸ List.mem_map_of_mem Task.id ht'
      rw [mem_foldl_userStep_skip F z
        (fun t' u' h' => by rw [hmem t' u', if_neg h']) ts _ hskip]
      rw [hmem t u, if_pos hz]
    · rw [List.find?_cons_of_neg _ (by simp [hz])]
      rw [ih (List.nodup_cons.mp hl).2]
      have hmm : z ∈ (F t u).pendingTasks ↔ z ∈ u.pendingTasks := by
        rw [hmem t u, if_neg hz]
      cases hfind : ts.find? (fun t' => t'.id == z) with
      | none => exact hmm
      | some t' => exact hcongr t' (F t u) u (hid t u) hmm

theorem mem_claimUserT (uid : String) (t : Task) (u : User) (z : String) :
    z ∈ (claimUserT uid t u).pendingTasks ↔
      (if t.id = z then
        (if uid ≠ "" ∧ u.id = uid then t.completed = false
         else if t.assignedUser ≠ "" ∧ t.assignedUser ≠ uid ∧ u.id = t.assignedUser then False
         else z ∈ u.pendingTasks)
       else z ∈ u.pendingTasks) := by
  unfold claimUserT
  by_cases hz : t.id = z
  · subst hz
    rw [if_pos rfl]
    by_cases h2 : uid ≠ "" ∧ u.id = uid
    · rw [if_pos h2, if_pos h2]
      by_cases h3 : t.completed = false
      · rw [if_pos h3, mem_pushPending]
        simp [h3]
      · rw [if_neg h3, mem_pullPending]
        simp [h3]
    · rw [if_neg h2, if_neg h2]
      by_cases h1 : t.assignedUser ≠ "" ∧ t.assignedUser ≠ uid ∧ u.id = t.assignedUser
      · rw [if_pos h1, if_pos h1, mem_pullPending]
        simp
      · rw [if_neg h1, if_neg h1]
  · rw [if_neg hz]
    have hne : z ≠ t.id := fun e => hz e.symm
    have hu1 : z ∈ (if t.assignedUser ≠ "" ∧ t.assignedUser ≠ uid ∧ u.id = t.assignedUser then
        pullPending t.id u else u).pendingTasks ↔ z ∈ u.pendingTasks := by
      split
      · rw [mem_pullPending]; simp [hne]
      · exact Iff.rfl
    by_cases h2 : uid ≠ "" ∧ u.id = uid
    · rw [if_pos h2]
      by_cases h3 : t.completed = false
      · rw [if_pos h3, mem_pushPending, hu1]
        simp [hne]
      · rw [if_neg h3, mem_pullPending, hu1]
        simp [hne]
    · rw [if_neg h2]
      exact hu1

theorem mem_unassignUserT (uid : String) (t : Task) (u : User) (z : String) :
    z ∈ (unassignUserT uid t u).pendingTasks ↔
      (if t.id = z then
        (if uid ≠ "" ∧ u.id = uid then False else z ∈ u.pendingTasks)
       else z ∈ u.pendingTasks) := by
  unfold unassignUserT
  have hne : ¬ t.id = z → z ≠ t.id := fun h e => h e.symm
  by_cases h2 : uid ≠ "" ∧ u.id = uid <;> by_cases hz : t.id = z
  · rw [if_pos h2, if_pos hz, if_pos h2, mem_pullPending]
    simp [hz]
  · rw [if_pos h2, if_neg hz, mem_pullPending]
    simp [hne hz]
  · rw [if_neg h2, if_pos hz, if_neg h2]
  · rw [if_neg h2, if_neg hz]

theorem mem_foldl_claimU (uid : String) (l : List Task) (hl : (l.map Task.id).Nodup)
    (u : User) (z : String) :
    z ∈ (l.foldl (fun a t => claimUserT uid t a) u).pendingTasks ↔
      (match l.find? (fun t => t.id == z) with
       | some t =>
         if uid ≠ "" ∧ u.id = uid then t.completed = false
         else if t.assignedUser ≠ "" ∧ t.assignedUser ≠ uid ∧ u.id = t.assignedUser then False
         else z ∈ u.pendingTasks
       | none => z ∈ u.pendingTasks) := by
  refine mem_foldl_userStep (claimUserT uid)
    (fun t v =>
      if uid ≠ "" ∧ v.id = uid then t.completed = false
      else if t.assignedUser ≠ "" ∧ t.assignedUser ≠ uid ∧ v.id = t.assignedUser then False
      else z ∈ v.pendingTasks) z
    (fun t v => claimUserT_id uid t v) (fun t v => mem_claimUserT uid t v z) ?_ l hl u
  intro t v w hidv hmm
  simp only [hidv, hmm]

theorem mem_foldl_unassignU (uid : String) (l : List Task) (hl : (l.map Task.id).Nodup)
    (u : User) (z : String) :
    z ∈ (l.foldl (fun a t => unassignUserT uid t a) u).pendingTasks ↔
      (match l.find? (fun t => t.id == z) with
       | some t => if uid ≠ "" ∧ u.id = uid then False else z ∈ u.pendingTasks
       | none => z ∈ u.pendingTasks) := by
  refine mem_foldl_userStep (unassignUserT uid)
    (fun _ v => if uid ≠ "" ∧ v.id = uid then False else z ∈ v.pendingTasks) z
    (fun t v => unassignUserT_id uid t v) (fun t v => mem_unassignUserT uid t v z) ?_ l hl u
  intro t v w hidv hmm
  simp only [hidv, hmm]

theorem applyQuery_length_le_100 {α : Type} (records : List α) (w : Option (α → Bool))
    (srt : Option (α → α → Bool)) (sel : Option (α → α)) (skip : Option Int) :
    (applyQuery records w srt sel skip (some 100)).length ≤ 100 := by
  unfold applyQuery
  have h100 : ¬((100 : Int) = 0) := by decide
  dsimp only
  cases sel with
  | some f =>
    simp only [List.length_map]
    rw [if_neg h100]
    simpa using List.length_take_le ((100 : Int)).natAbs _
  | none =>
    rw [if_neg h100]
    simpa using List.length_take_le ((100 : Int)).natAbs _

/-- Claim C2, counterexample: fetching a user by the malformed identifier
"zz" answers NotFound, not InvalidArgument. -/
theorem C2_counterexample :
    getUser exSt "zz" Param.absent = Resp.notFound ∧
    (getUser exSt "zz" Param.absent).isInvalidArgument = false := by
  constructor <;> rfl

/-- Claim C2 (amended): for every get-user request whose identifier is
malformed, the User Service fails with NotFound, whereas the Task Service
fails with InvalidArgument on the same identifier — the two services
diverge, because the user route catches the identifier cast error with a
404 response. -/
theorem C2_amended_get_malformed_id (st : St) (id : String)
    (sU : Option (User → User)) (sT : Option (Task → Task))
    (hid : isValidId id = false) :
    getUser st id (Param.ofOption sU) = Resp.notFound ∧
    getTask st id (Param.ofOption sT) = Resp.invalidArgument "Invalid task id" := by
  constructor
  · cases sU <;> simp [getUser, Param.ofOption, hid]
  · cases sT <;> simp [getTask, Param.ofOption, hid]

/-- Witness for C2 at the malformed identifier "zz". -/
theorem C2_amended_get_malformed_id_witness :
    isValidId "zz" = false ∧
    (getUser exSt "zz" (Param.ofOption none) = Resp.notFound ∧
     getTask exSt "zz" (Param.ofOption none) = Resp.invalidArgument "Invalid task id") :=
  ⟨by decide, C2_amended_get_malformed_id exSt "zz" none none (by decide)⟩

/-- Claim C3: a task update supplying an assigned user that references no
existing user fails with InvalidArgument and returns the store unchanged:
no task field is persisted and no pending set is touched. -/
theorem C3_task_update_bad_assignee (st : St) (id : String) (b : TaskInput)
    (hname : ¬ strTrim b.name = "") (hdl : ¬ b.deadline = none)
    (t0 : Task) (hfound : findTask st id = some t0)
    (ha : ¬ b.assignedUser = "") (hu : findUser st b.assignedUser = none) :
    taskUpdate st id b = (Resp.invalidArgument "Assigned user does not exist", st) := by
  unfold taskUpdate
  rw [if_neg (show ¬(strTrim b.name = "" ∨ b.deadline = none) from
    fun hcon => hcon.elim hname hdl)]
  rw [hfound]
  dsimp only
  rw [if_neg ha, hu]

/-- Witness for C3: updating the open task to point at the unknown user
"nobody" answers 400 and leaves the store untouched. -/
theorem C3_task_update_bad_assignee_witness :
    taskUpdate exSt "t2"
        { name := "Plan", description := "", deadline := some 20,
          completed := some false, assignedUser := "nobody" }
      = (Resp.invalidArgument "Assigned user does not exist", exSt) :=
  C3_task_update_bad_assignee exSt "t2" _ (by decide) (by decide) exTaskOpen (by decide)
    (by decide) (by decide)

/-- Claim C7: a task list request with no limit parameter and count-only
unset returns at most 100 records (the limit defaults to 100), while a user
list request under the same conditions applies no limit: every matching
record is returned. -/
theorem C7_limit_asymmetry :
    (∀ (st : St) (w : Option (Task → Bool)) (srt : Option (Task → Task → Bool))
        (sel : Option (Task → Task)) (skip : Option (Option Int)),
      ∃ l, listTasks st
          { whereParam := Param.ofOption w, sortParam := Param.ofOption srt,
            selectParam := Param.ofOption sel, skipParam := skip,
            limitParam := none, countParam := none }
        = (ListResp.items l, ["find"]) ∧ l.length ≤ 100)
    ∧ (∀ (st : St) (w : Option (User → Bool)),
      listUsers st
          { whereParam := Param.ofOption w, sortParam := Param.absent,
            selectParam := Param.absent, skipParam := none,
            limitParam := none, countParam := none }
        = (ListResp.items (match w with
            | some p => st.users.filter p
            | none => st.users), ["find"])) := by
  constructor
  · intro st w srt sel skip
    cases w <;> cases srt <;> cases sel <;>
      exact ⟨_, rfl, applyQuery_length_le_100 _ _ _ _ _⟩
  · intro st w
    cases w <;> rfl

/-- Claim C8: a list request (tasks or users) whose where, sort, or select
parameter is unparseable answers InvalidArgument, and the recorded store
operation trace is empty: no find, count, or write ran. -/
theorem C8_malformed_param_no_store_access (st : St)
    (qT : ListQuery Task) (qU : ListQuery User)
    (hT : qT.whereParam = Param.malformed ∨ qT.sortParam = Param.malformed ∨
      qT.selectParam = Param.malformed)
    (hU : qU.whereParam = Param.malformed ∨ qU.sortParam = Param.malformed ∨
      qU.selectParam = Param.malformed) :
    ((∃ m, (listTasks st qT).1 = ListResp.invalidArgument m) ∧ (listTasks st qT).2 = []) ∧
    ((∃ m, (listUsers st qU).1 = ListResp.invalidArgument m) ∧ (listUsers st qU).2 = []) := by
  constructor
  · obtain ⟨w, srt, sel, sk, li, c⟩ := qT
    rcases hT with h | h | h <;> subst h
    · cases srt <;> cases sel <;> exact ⟨⟨_, rfl⟩, rfl⟩
    · cases w <;> cases sel <;> exact ⟨⟨_, rfl⟩, rfl⟩
    · cases w <;> cases srt <;> exact ⟨⟨_, rfl⟩, rfl⟩
  · obtain ⟨w, srt, sel, sk, li, c⟩ := qU
    rcases hU with h | h | h <;> subst h
    · cases srt <;> cases sel <;> exact ⟨⟨_, rfl⟩, rfl⟩
    · cases w <;> cases sel <;> exact ⟨⟨_, rfl⟩, rfl⟩
    · cases w <;> cases srt <;> exact ⟨⟨_, rfl⟩, rfl⟩

/-- Witness for C8 at a request with an unparseable filter. -/
theorem C8_malformed_param_no_store_access_witness :
    ((∃ m, (listTasks exSt exBadTaskQuery).1 = ListResp.invalidArgument m) ∧
      (listTasks exSt exBadTaskQuery).2 = []) ∧
    ((∃ m, (listUsers exSt exBadUserQuery).1 = ListResp.invalidArgument m) ∧
      (listUsers exSt exBadUserQuery).2 = []) :=
  C8_malformed_param_no_store_access exSt exBadTaskQuery exBadUserQuery
    (Or.inl rfl) (Or.inl rfl)

theorem find?_map_of_id (f : User → User) (hf : ∀ u, (f u).id = u.id)
    (l : List User) (id : String) :
    (l.map f).find? (fun u => u.id == id) = (l.find? (fun u => u.id == id)).map f := by
  induction l with
  | nil => rfl
  | cons u us ih =>
    by_cases h : (u.id == id) = true
    · rw [List.map_cons, List.find?_cons_of_pos _ (by rw [hf]; exact h),
        List.find?_cons_of_pos _ (by exact h)]
      rfl
    · rw [List.map_cons, List.find?_cons_of_neg _ (by rw [hf]; exact h),
        List.find?_cons_of_neg _ (by exact h), ih]

theorem foldl_taskStep_id (F : Task → Task → Task) (hid : ∀ x a, (F x a).id = a.id)
    (l : List Task) (a : Task) :
    (l.foldl (fun a x => F x a) a).id = a.id := by
  induction l generalizing a with
  | nil => rfl
  | cons x xs ih =>
    simp only [List.foldl_cons]
    rw [ih, hid]

theorem foldl_const {α β : Type} (l : List β) (a : α) :
    l.foldl (fun a _ => a) a = a := by
  induction l with
  | nil => rfl
  | cons x xs ih => simpa using ih

theorem userUpdate_success_eq (st : St) (id : String) (b : UserInput)
    (hname : ¬ strTrim b.name = "") (hemail : ¬ strLower (strTrim b.email) = "")
    (u0 : User) (hfound : findUser st id = some u0)
    (hdupe : (match st.users.find? (fun u => u.email == strLower (strTrim b.email)) with
              | some d => d.id != u0.id
              | none => false) = false) :
    userUpdate st id b =
      (Resp.ok ((findUser (uuFinal st b u0) u0.id).getD u0), uuFinal st b u0) := by
  unfold userUpdate
  rw [if_neg (show ¬(strTrim b.name = "" ∨ strLower (strTrim b.email) = "") from
    fun hcon => hcon.elim hname hemail), hfound]
  dsimp only
  rw [hdupe]
  dsimp only
  rw [foldl_pointwise _ (fun x => unassignTaskT x) (fun x => unassignUserT u0.id x)
    (fun s x => unassignStep_eq s u0.id x)]
  rw [foldl_pointwise _ (fun x => claimTaskT u0.id (strTrim b.name) x)
    (fun x => claimUserT u0.id x)
    (fun s x => claimStep_eq s u0.id (strTrim b.name) x)]
  rfl

theorem userCreate_success_eq (st : St) (freshId : String) (b : UserInput)
    (hname : ¬ strTrim b.name = "") (hemail : ¬ strLower (strTrim b.email) = "")
    (hdupe : st.users.find? (fun u => u.email == strLower (strTrim b.email)) = none) :
    userCreate st freshId b =
      (Resp.created ((findUser (ucFinal st freshId b) freshId).getD
          { id := freshId, name := strTrim b.name, email := strLower (strTrim b.email),
            pendingTasks := [] }),
       ucFinal st freshId b) := by
  unfold userCreate
  rw [if_neg (show ¬(strTrim b.name = "" ∨ strLower (strTrim b.email) = "") from
    fun hcon => hcon.elim hname hemail), hdupe]
  dsimp only [Option.isSome_none]
  rw [if_neg (by decide : ¬(false = true))]
  rw [foldl_pointwise _ (fun x => claimTaskT freshId (strTrim b.name) x)
    (fun x => claimUserT freshId x)
    (fun s x => claimStep_eq s freshId (strTrim b.name) x)]
  rfl

theorem userDelete_success_eq (st : St) (id : String) (u0 : User)
    (hfound : findUser st id = some u0) :
    userDelete st id = (Resp.ok (), udFinal st u0) := by
  unfold userDelete
  rw [hfound]
  dsimp only
  rw [foldl_pointwise _ (fun x => unassignTaskT x) (fun _ => fun u => u)
    (fun s x => by
      unfold saveTask
      refine St.ext ?_ ?_
      · exact List.map_congr_left (fun a _ => rfl)
      · exact (List.map_id' _).symm)]
  refine Prod.ext rfl ?_
  refine St.ext rfl ?_
  simp only [foldl_const, List.map_id']
  rfl

theorem findUser_some_id (st : St) (id : String) (u : User)
    (hfound : findUser st id = some u) : u.id = id := by
  unfold findUser at hfound
  simpa using List.find?_some hfound

theorem uuFinal_findUser (st : St) (b : UserInput) (u0 : User)
    (hfound : st.users.find? (fun u => u.id == u0.id) = some u0) :
    findUser (uuFinal st b u0) u0.id =
      some { id := u0.id, name := strTrim b.name, email := strLower (strTrim b.email),
             pendingTasks := b.pendingTasks.getD [] } := by
  unfold uuFinal findUser
  dsimp only
  rw [find?_map_of_id _ (fun u => by split <;> rfl) _ _,
    find?_map_of_id _ (fun u => foldl_userStep_id _ (fun t v => claimUserT_id u0.id t v) _ u) _ _,
    find?_map_of_id _ (fun u => foldl_userStep_id _ (fun t v => unassignUserT_id u0.id t v) _ u) _ _,
    hfound]
  simp only [Option.map_some',
    foldl_userStep_id (claimUserT u0.id) (fun t v => claimUserT_id u0.id t v),
    foldl_userStep_id (unassignUserT u0.id) (fun t v => unassignUserT_id u0.id t v),
    eq_self_iff_true, if_true]

/-- Claim C5: a successful user update persists the user record with the
client-supplied pending list element for element (not recomputed from the
task records), together with the validated name and email. -/
theorem C5_user_update_persists_requested (st : St) (id : String) (b : UserInput)
    (hname : ¬ strTrim b.name = "") (hemail : ¬ strLower (strTrim b.email) = "")
    (u0 : User) (hfound : findUser st id = some u0)
    (hdupe : (match st.users.find? (fun u => u.email == strLower (strTrim b.email)) with
              | some d => d.id != u0.id
              | none => false) = false) :
    findUser (userUpdate st id b).2 id =
      some { id := id, name := strTrim b.name, email := strLower (strTrim b.email),
             pendingTasks := b.pendingTasks.getD [] } ∧
    ∃ d, (userUpdate st id b).1 = Resp.ok d := by
  have hid := findUser_some_id st id u0 hfound
  subst hid
  rw [userUpdate_success_eq st u0.id b hname hemail u0 hfound hdupe]
  exact ⟨uuFinal_findUser st b u0 hfound, ⟨_, rfl⟩⟩

/-- Witness for C5: renaming Alice while requesting the pending list
["t9", "t2"] persists exactly that list, including the unknown "t9". -/
theorem C5_user_update_persists_requested_witness :
    findUser (userUpdate exSt "u1" exC5Input).2 "u1" =
      some { id := "u1", name := "Alicia", email := "alicia@example.com",
             pendingTasks := ["t9", "t2"] } ∧
    ∃ d, (userUpdate exSt "u1" exC5Input).1 = Resp.ok d :=
  C5_user_update_persists_requested exSt "u1" exC5Input (by decide) (by decide)
    exUserA (by decide) (by decide)

theorem pendingOf_addPending_self (st : St) (uid tid : String) (u0 : User)
    (hu : findUser st uid = some u0) (hne : ¬ uid = "") :
    pendingOf (addPendingToUser st uid tid) uid = (pushPending tid u0).pendingTasks := by
  have hid : u0.id = uid := findUser_some_id st uid u0 hu
  rw [addPending_eq]
  unfold pendingOf findUser
  rw [find?_map_of_id _ (fun u => by split <;> simp) _ _,
    show st.users.find? (fun u => u.id == uid) = some u0 from hu]
  simp only [Option.map_some']
  rw [if_pos (And.intro hne hid)]

theorem pendingOf_removePending_self (st : St) (uid tid : String) (u0 : User)
    (hu : findUser st uid = some u0) (hne : ¬ uid = "") :
    pendingOf (removePendingFromUser st uid tid) uid = (pullPending tid u0).pendingTasks := by
  have hid : u0.id = uid := findUser_some_id st uid u0 hu
  rw [removePending_eq]
  unfold pendingOf findUser
  rw [find?_map_of_id _ (fun u => by split <;> simp) _ _,
    show st.users.find? (fun u => u.id == uid) = some u0 from hu]
  simp only [Option.map_some']
  rw [if_pos (And.intro hne hid)]

theorem mem_pendingOf_removePending (st : St) (uid tid x z : String) :
    z ∈ pendingOf (removePendingFromUser st uid tid) x ↔
      (z ∈ pendingOf st x ∧ ¬(¬ uid = "" ∧ x = uid ∧ z = tid)) := by
  rw [removePending_eq]
  unfold pendingOf findUser
  rw [find?_map_of_id _ (fun u => by split <;> simp) _ _]
  cases hf : st.users.find? (fun u => u.id == x) with
  | none => simp
  | some u =>
    have hid : u.id = x := by simpa using List.find?_some hf
    simp only [Option.map_some']
    by_cases hc : ¬ uid = "" ∧ x = uid
    · rw [if_pos (And.intro hc.1 (hid.trans hc.2))]
      rw [mem_pullPending]
      have h1 := hc.1
      have h2 := hc.2
      tauto
    · rw [if_neg (fun hcon => hc (And.intro hcon.1 (hid.symm.trans hcon.2)))]
      tauto

theorem mem_pendingOf_addPending (st : St) (uid tid x z : String) :
    z ∈ pendingOf (addPendingToUser st uid tid) x ↔
      (z ∈ pendingOf st x ∨
        (¬ uid = "" ∧ x = uid ∧ z = tid ∧ (findUser st x).isSome = true)) := by
  rw [addPending_eq]
  unfold pendingOf findUser
  rw [find?_map_of_id _ (fun u => by split <;> simp) _ _]
  cases hf : st.users.find? (fun u => u.id == x) with
  | none => simp
  | some u =>
    have hid : u.id = x := by simpa using List.find?_some hf
    simp only [Option.map_some', Option.isSome_some]
    by_cases hc : ¬ uid = "" ∧ x = uid
    · rw [if_pos (And.intro hc.1 (hid.trans hc.2))]
      rw [mem_pushPending]
      have h1 := hc.1
      have h2 := hc.2
      tauto
    · rw [if_neg (fun hcon => hc (And.intro hcon.1 (hid.symm.trans hcon.2)))]
      tauto

theorem taskCreate_success_eq (st : St) (fid : String) (b : TaskInput)
    (hname : ¬ strTrim b.name = "") (hdl : ¬ b.deadline = none)
    (ha : ¬ b.assignedUser = "")
    (u0 : User) (hu : findUser st b.assignedUser = some u0) :
    taskCreate st fid b =
      (Resp.created ((findTask (tcFinal st fid b u0.name) fid).getD (tcTask fid b u0.name)),
       tcFinal st fid b u0.name) := by
  unfold taskCreate
  rw [if_neg (show ¬(strTrim b.name = "" ∨ b.deadline = none) from
    fun hcon => hcon.elim hname hdl)]
  dsimp only
  rw [if_neg ha, show (findUser st b.assignedUser) = some u0 from hu]
  rw [if_neg (show ¬(¬ b.assignedUser = "" ∧ (some u0 = none)) from
    fun hcon => Option.noConfusion hcon.2)]
  rw [if_pos ha]
  rfl

theorem taskUpdate_success_eq (st : St) (id : String) (b : TaskInput)
    (hname : ¬ strTrim b.name = "") (hdl : ¬ b.deadline = none)
    (t0 : Task) (hfound : findTask st id = some t0)
    (ow ownName : String)
    (hres : (if b.assignedUser = "" then some ("", "unassigned")
             else (findUser st b.assignedUser).map (fun u => (u.id, u.name)))
        = some (ow, ownName)) :
    taskUpdate st id b =
      (Resp.ok ((findTask (tuFinal st t0 (tuTask t0 b ow ownName)) (tuTask t0 b ow ownName).id).getD
          (tuTask t0 b ow ownName)),
       tuFinal st t0 (tuTask t0 b ow ownName)) := by
  unfold taskUpdate
  rw [if_neg (show ¬(strTrim b.name = "" ∨ b.deadline = none) from
    fun hcon => hcon.elim hname hdl)]
  rw [hfound]
  dsimp only
  by_cases hA : b.assignedUser = ""
  · rw [if_pos hA] at hres ⊢
    obtain ⟨h1, h2⟩ : "" = ow ∧ "unassigned" = ownName := by
      have := Option.some.inj hres
      exact ⟨congrArg Prod.fst this, congrArg Prod.snd this⟩
    rw [← h1, ← h2]
    rfl
  · rw [if_neg hA] at hres ⊢
    cases hfu : findUser st b.assignedUser with
    | none => rw [hfu] at hres; exact Option.noConfusion hres
    | some u =>
      rw [hfu] at hres
      obtain ⟨h1, h2⟩ : u.id = ow ∧ u.name = ownName := by
        have := Option.some.inj hres
        exact ⟨congrArg Prod.fst this, congrArg Prod.snd this⟩
      rw [← h1, ← h2]
      rfl

theorem taskDelete_success_eq (st : St) (id : String) (t0 : Task)
    (hfound : findTask st id = some t0) :
    taskDelete st id = (Resp.ok (), tdFinal st t0) := by
  unfold taskDelete
  rw [hfound]
  rfl

/-- Claim C6: creating a task assigned to an existing user adds its fresh
identifier to that user's pending set exactly once when it is not
completed, and leaves the identifier out of the pending set when it is
created already completed. -/
theorem C6_task_create_pending (st : St) (fid : String) (b : TaskInput)
    (hname : ¬ strTrim b.name = "") (hdl : ¬ b.deadline = none)
    (ha : ¬ b.assignedUser = "")
    (u0 : User) (hu : findUser st b.assignedUser = some u0)
    (hfresh : ∀ u ∈ st.users, fid ∉ u.pendingTasks) :
    (b.completed.getD false = false →
      (pendingOf (taskCreate st fid b).2 b.assignedUser).count fid = 1) ∧
    (b.completed.getD false = true →
      fid ∉ pendingOf (taskCreate st fid b).2 b.assignedUser) ∧
    (∃ d, (taskCreate st fid b).1 = Resp.created d) := by
  have hmem : u0 ∈ st.users := List.mem_of_find?_eq_some hu
  have hnotin : fid ∉ u0.pendingTasks := hfresh u0 hmem
  rw [taskCreate_success_eq st fid b hname hdl ha u0 hu]
  unfold tcFinal
  dsimp only
  by_cases hc : b.completed.getD false = false
  · rw [if_pos hc]
    refine ⟨fun _ => ?_, fun hcon => absurd (hc.symm.trans hcon) (by decide), ⟨_, rfl⟩⟩
    rw [pendingOf_addPending_self
      { tasks := st.tasks ++ [tcTask fid b u0.name], users := st.users }
      b.assignedUser fid u0 hu ha]
    unfold pushPending
    rw [if_neg (by simpa using hnotin)]
    dsimp only
    rw [List.count_append, List.count_eq_zero.mpr hnotin]
    simp
  · rw [if_neg hc]
    refine ⟨fun hcon => absurd hcon hc, fun _ => ?_, ⟨_, rfl⟩⟩
    rw [pendingOf_removePending_self
      { tasks := st.tasks ++ [tcTask fid b u0.name], users := st.users }
      b.assignedUser fid u0 hu ha]
    rw [mem_pullPending]
    simp

/-- Witness for C6 in both completion modes, at fresh identifiers "t7" and
"t8" assigned to Bob. -/
theorem C6_task_create_pending_witness :
    ((({ name := "New", description := "", deadline := some 30, completed := some false,
         assignedUser := "u2" } : TaskInput).completed.getD false = false →
      (pendingOf (taskCreate exSt "t7"
          { name := "New", description := "", deadline := some 30, completed := some false,
            assignedUser := "u2" }).2 "u2").count "t7" = 1) ∧
     (({ name := "New", description := "", deadline := some 30, completed := some false,
         assignedUser := "u2" } : TaskInput).completed.getD false = true →
      "t7" ∉ pendingOf (taskCreate exSt "t7"
          { name := "New", description := "", deadline := some 30, completed := some false,
            assignedUser := "u2" }).2 "u2") ∧
     (∃ d, (taskCreate exSt "t7"
          { name := "New", description := "", deadline := some 30, completed := some false,
            assignedUser := "u2" }).1 = Resp.created d)) :=
  C6_task_create_pending exSt "t7"
    { name := "New", description := "", deadline := some 30, completed := some false,
      assignedUser := "u2" }
    (by decide) (by decide) (by decide) exUserB (by decide) (by decide)

@[simp] theorem pendingOf_saveTask (st : St) (t : Task) (x : String) :
    pendingOf (saveTask st t) x = pendingOf st x := rfl

@[simp] theorem findUser_saveTask (st : St) (t : Task) (x : String) :
    findUser (saveTask st t) x = findUser st x := rfl

theorem findUser_isSome_removePending (st : St) (uid tid x : String) :
    (findUser (removePendingFromUser st uid tid) x).isSome = (findUser st x).isSome := by
  rw [removePending_eq]
  unfold findUser
  rw [find?_map_of_id _ (fun u => by split <;> simp) _ _]
  cases st.users.find? (fun u => u.id == x) <;> rfl

theorem pendingOf_no_empty_user (st : St) (hwf : ∀ u ∈ st.users, u.id ≠ "") :
    pendingOf st "" = [] := by
  unfold pendingOf findUser
  cases hf : st.users.find? (fun u => u.id == "") with
  | none => rfl
  | some u =>
    exact absurd (by simpa using List.find?_some hf)
      (hwf u (List.mem_of_find?_eq_some hf))

/-- Claim C4: after a successful task update the task's identifier is in
the new owner's pending set iff the new owner is non-empty and the new
completed flag is false, and when the previous owner is non-empty and
differs from the new owner the identifier is gone from the previous owner's
pending set; in particular reassigning a pending task moves the identifier
between the two pending sets in the same update. -/
theorem C4_task_update_reconcile (st : St) (id : String) (b : TaskInput)
    (hwf : ∀ u ∈ st.users, u.id ≠ "")
    (hname : ¬ strTrim b.name = "") (hdl : ¬ b.deadline = none)
    (t0 : Task) (hfound : findTask st id = some t0)
    (ow ownName : String)
    (hres : (if b.assignedUser = "" then some ("", "unassigned")
             else (findUser st b.assignedUser).map (fun u => (u.id, u.name)))
        = some (ow, ownName)) :
    (t0.id ∈ pendingOf (taskUpdate st id b).2 ow ↔
      (¬ ow = "" ∧ b.completed.getD false = false)) ∧
    (¬ t0.assignedUser = "" → ¬ t0.assignedUser = ow →
      t0.id ∉ pendingOf (taskUpdate st id b).2 t0.assignedUser) ∧
    (∃ d, (taskUpdate st id b).1 = Resp.ok d) := by
  have hsome : ¬ ow = "" → (findUser st ow).isSome = true := by
    intro hO
    by_cases hA : b.assignedUser = ""
    · rw [if_pos hA] at hres
      exact absurd (congrArg Prod.fst (Option.some.inj hres)).symm hO
    · rw [if_neg hA] at hres
      cases hfu : findUser st b.assignedUser with
      | none => rw [hfu] at hres; exact Option.noConfusion hres
      | some u =>
        rw [hfu] at hres
        have hid : u.id = ow := congrArg Prod.fst (Option.some.inj hres)
        unfold findUser
        rw [List.find?_isSome]
        exact ⟨u, List.mem_of_find?_eq_some hfu, by simp [hid]⟩
  have hemp : pendingOf st "" = [] := pendingOf_no_empty_user st hwf
  rw [taskUpdate_success_eq st id b hname hdl t0 hfound ow ownName hres]
  refine ⟨?_, ?_, ⟨_, rfl⟩⟩
  · show t0.id ∈ pendingOf (tuFinal st t0 (tuTask t0 b ow ownName)) ow ↔ _
    unfold tuFinal
    dsimp only [tuTask]
    by_cases hO : ow = ""
    · subst hO
      by_cases hA : t0.assignedUser = "" <;>
        simp [hA, mem_pendingOf_removePending, hemp]
    · have hs : (findUser st ow).isSome = true := hsome hO
      by_cases hc : b.completed.getD false = false <;>
      by_cases hA : t0.assignedUser = "" <;>
      by_cases hE : t0.assignedUser = ow <;>
      by_cases hpc : t0.completed = false <;>
        simp [hO, hc, hA, hE, hpc, mem_pendingOf_addPending, mem_pendingOf_removePending,
          findUser_isSome_removePending, hs]
  · intro hA hE
    show t0.id ∉ pendingOf (tuFinal st t0 (tuTask t0 b ow ownName)) t0.assignedUser
    unfold tuFinal
    dsimp only [tuTask]
    by_cases hO : ow = "" <;>
    by_cases hc : b.completed.getD false = false <;>
      simp [hO, hc, hA, hE, fun e : ow = t0.assignedUser => hE e.symm,
        mem_pendingOf_addPending, mem_pendingOf_removePending]

/-- Witness for C4: reassigning the open task from Alice to Bob puts its
identifier in Bob's pending set and removes it from Alice's. -/
theorem C4_task_update_reconcile_witness :
    ((exTaskOpen.id ∈ pendingOf (taskUpdate exSt "t2" exC4Input).2 "u2" ↔
        (¬("u2" : String) = "" ∧ exC4Input.completed.getD false = false)) ∧
     (¬ exTaskOpen.assignedUser = "" → ¬ exTaskOpen.assignedUser = "u2" →
        exTaskOpen.id ∉ pendingOf (taskUpdate exSt "t2" exC4Input).2 exTaskOpen.assignedUser) ∧
     (∃ d, (taskUpdate exSt "t2" exC4Input).1 = Resp.ok d)) :=
  C4_task_update_reconcile exSt "t2" exC4Input (by decide) (by decide) (by decide)
    exTaskOpen (by decide) "u2" "Bob" (by decide)

theorem nodup_filter_map_id (l : List Task) (p : Task → Bool)
    (h : (l.map Task.id).Nodup) : ((l.filter p).map Task.id).Nodup :=
  List.Nodup.sublist (List.Sublist.map _ (List.filter_sublist _)) h

/-- Claim C9: a user update whose body omits pendingTasks (or supplies a
non-array) treats the requested pending set as empty: every stored task
whose identifier was in the user's pending set is unassigned, and the user
record is persisted with an empty pending set. -/
theorem C9_user_update_empty_request (st : St) (id : String) (b : UserInput)
    (hnodup : (st.tasks.map Task.id).Nodup)
    (hname : ¬ strTrim b.name = "") (hemail : ¬ strLower (strTrim b.email) = "")
    (u0 : User) (hfound : findUser st id = some u0)
    (hdupe : (match st.users.find? (fun u => u.email == strLower (strTrim b.email)) with
              | some d => d.id != u0.id
              | none => false) = false)
    (hnil : b.pendingTasks = none) :
    (∀ t' ∈ (userUpdate st id b).2.tasks, t'.id ∈ u0.pendingTasks →
        t'.assignedUser = "" ∧ t'.assignedUserName = "unassigned") ∧
    findUser (userUpdate st id b).2 id =
      some { id := id, name := strTrim b.name, email := strLower (strTrim b.email),
             pendingTasks := [] } := by
  have hid := findUser_some_id st id u0 hfound
  subst hid
  rw [userUpdate_success_eq st u0.id b hname hemail u0 hfound hdupe]
  constructor
  · intro t' ht' hmem
    have hcn : ∀ y : String, (List.contains ([] : List String) y) = false := fun _ => rfl
    simp only [uuFinal, hnil, Option.getD_none, List.filter_nil, hcn, Bool.not_false,
      List.filter_true, List.filter_false, List.foldl_nil, List.map_id'] at ht'
    obtain ⟨t, ht, rfl⟩ := List.mem_map.mp ht'
    rw [foldl_taskStep_id (fun x a => unassignTaskT x a)
      (fun x a => unassignTaskT_id x a)] at hmem
    simp only [unassignTaskT]
    rw [foldl_replace_eq unassignTaskOf (fun _ => rfl) _
      (nodup_filter_map_id _ _ hnodup) t]
    cases hfind : (st.tasks.filter (fun x => u0.pendingTasks.contains x.id)).find?
        (fun x => x.id == t.id) with
    | some x => exact ⟨rfl, rfl⟩
    | none =>
      exfalso
      rw [List.find?_eq_none] at hfind
      exact hfind t (List.mem_filter.mpr ⟨ht, by simpa using hmem⟩) (by simp)
  · have := uuFinal_findUser st b u0 hfound
    rw [hnil] at this
    simpa using this

/-- Witness for C9: updating Alice with pendingTasks omitted unassigns her
open task and empties her pending set. -/
theorem C9_user_update_empty_request_witness :
    (∀ t' ∈ (userUpdate exSt "u1" exC9Input).2.tasks, t'.id ∈ exUserA.pendingTasks →
        t'.assignedUser = "" ∧ t'.assignedUserName = "unassigned") ∧
    findUser (userUpdate exSt "u1" exC9Input).2 "u1" =
      some { id := "u1", name := "Alice", email := "alice@example.com",
             pendingTasks := [] } :=
  C9_user_update_empty_request exSt "u1" exC9Input (by decide) (by decide) (by decide)
    exUserA (by decide) (by decide) (by decide)

/-- Claim C10: a user creation whose requested pending list names an
identifier referencing no existing task still succeeds with 201, and that
identifier is absent from the created user's pending set. -/
theorem C10_user_create_unknown_ids (st : St) (fid : String) (b : UserInput)
    (hnodup : (st.tasks.map Task.id).Nodup)
    (hname : ¬ strTrim b.name = "") (hemail : ¬ strLower (strTrim b.email) = "")
    (hdupe : st.users.find? (fun u => u.email == strLower (strTrim b.email)) = none)
    (hfresh : ∀ u ∈ st.users, u.id ≠ fid)
    (tid : String) (hnotask : ∀ t ∈ st.tasks, t.id ≠ tid) :
    (∃ d, (userCreate st fid b).1 = Resp.created d) ∧
    tid ∉ pendingOf (userCreate st fid b).2 fid := by
  rw [userCreate_success_eq st fid b hname hemail hdupe]
  refine ⟨⟨_, rfl⟩, ?_⟩
  show tid ∉ pendingOf (ucFinal st fid b) fid
  unfold ucFinal pendingOf findUser
  dsimp only
  rw [find?_map_of_id _ (fun u => foldl_userStep_id _ (fun t v => claimUserT_id fid t v) _ u) _ _]
  rw [List.find?_append, List.find?_eq_none.mpr
    (fun u hu => by simpa using hfresh u hu)]
  simp only [Option.none_or]
  rw [List.find?_cons_of_pos _ (by simp)]
  simp only [Option.map_some']
  intro hmem
  rw [mem_foldl_claimU fid _ (nodup_filter_map_id _ _ hnodup) _ tid] at hmem
  rw [List.find?_eq_none.mpr (fun t ht => by
    simpa using hnotask t (List.mem_of_mem_filter ht))] at hmem
  simp at hmem

/-- Witness for C10: creating Carol with the pending list ["zz", "t2"]
succeeds although "zz" references no task, and "zz" is not in Carol's
pending set. -/
theorem C10_user_create_unknown_ids_witness :
    (∃ d, (userCreate exSt "u3" exC10Input).1 = Resp.created d) ∧
    "zz" ∉ pendingOf (userCreate exSt "u3" exC10Input).2 "u3" :=
  C10_user_create_unknown_ids exSt "u3" exC10Input (by decide) (by decide) (by decide)
    (by decide) (by decide) "zz" (by decide)

theorem users_map_ids (f : User → User) (hf : ∀ u, (f u).id = u.id) (l : List User) :
    (l.map f).map User.id = l.map User.id := by
  rw [List.map_map]
  exact List.map_congr_left (fun u _ => hf u)

theorem tasks_map_ids (g : Task → Task) (hg : ∀ t, (g t).id = t.id) (l : List Task) :
    (l.map g).map Task.id = l.map Task.id := by
  rw [List.map_map]
  exact List.map_congr_left (fun t _ => hg t)

theorem wf_users_map (st : St) (f : User → User) (hf : ∀ u, (f u).id = u.id)
    (h : WfSt st) : WfSt { st with users := st.users.map f } := by
  obtain ⟨h1, h2, h3⟩ := h
  refine ⟨h1, ?_, ?_⟩
  · rw [users_map_ids f hf]
    exact h2
  · intro u hu
    obtain ⟨v, hv, rfl⟩ := List.mem_map.mp hu
    rw [hf]
    exact h3 v hv

theorem wf_tasks_map (st : St) (g : Task → Task) (hg : ∀ t, (g t).id = t.id)
    (h : WfSt st) : WfSt { st with tasks := st.tasks.map g } := by
  obtain ⟨h1, h2, h3⟩ := h
  exact ⟨by rw [tasks_map_ids g hg]; exact h1, h2, h3⟩

theorem mem_ite_pull (c : Prop) [Decidable c] (tid z : String) (u : User) :
    z ∈ (if c then pullPending tid u else u).pendingTasks ↔
      (z ∈ u.pendingTasks ∧ ¬(c ∧ z = tid)) := by
  split
  · next h => rw [mem_pullPending]; tauto
  · next h => tauto

theorem mem_ite_push (c : Prop) [Decidable c] (tid z : String) (u : User) :
    z ∈ (if c then pushPending tid u else u).pendingTasks ↔
      (z ∈ u.pendingTasks ∨ (c ∧ z = tid)) := by
  split
  · next h => rw [mem_pushPending]; tauto
  · next h => tauto

@[simp] theorem ite_pull_id (c : Prop) [Decidable c] (tid : String) (u : User) :
    (if c then pullPending tid u else u).id = u.id := by
  split <;> simp

@[simp] theorem ite_push_id (c : Prop) [Decidable c] (tid : String) (u : User) :
    (if c then pushPending tid u else u).id = u.id := by
  split <;> simp

theorem nodup_append_singleton {α : Type} (l : List α) (a : α)
    (hl : l.Nodup) (ha : a ∉ l) : (l ++ [a]).Nodup := by
  rw [List.nodup_append]
  exact ⟨hl, List.nodup_singleton a, fun x hx hxa => ha ((List.mem_singleton.mp hxa) ▸ hx)⟩

theorem invSt_i2 (st : St) (hinv : InvSt st) : I2 st := by
  rintro t ht hcond u hu hmem
  obtain ⟨⟨-, -, hne⟩, hg⟩ := hinv
  obtain ⟨hass, hcomp⟩ := hg t ht u hu hmem
  rcases hcond with h | h
  · exact hne u hu (hass ▸ h)
  · rw [hcomp] at h
    exact Bool.noConfusion h

theorem wf_append_task (st : St) (task : Task) (h : WfSt st)
    (hfresh : task.id ∉ st.tasks.map Task.id) :
    WfSt { st with tasks := st.tasks ++ [task] } := by
  obtain ⟨h1, h2, h3⟩ := h
  refine ⟨?_, h2, h3⟩
  rw [List.map_append]
  exact nodup_append_singleton _ _ h1 hfresh

theorem inv_taskCreate (st : St) (fid : String) (b : TaskInput)
    (hinv : InvSt st)
    (hfresh1 : fid ∉ st.tasks.map Task.id)
    (hfresh2 : ∀ u ∈ st.users, fid ∉ u.pendingTasks) :
    InvSt (taskCreate st fid b).2 := by
  obtain ⟨hwf, hg⟩ := hinv
  unfold taskCreate
  by_cases hv : strTrim b.name = "" ∨ b.deadline = none
  · rw [if_pos hv]
    exact ⟨hwf, hg⟩
  · rw [if_neg hv]
    dsimp only
    by_cases hA : b.assignedUser = ""
    · rw [if_pos hA]
      rw [if_neg (show ¬(¬ b.assignedUser = "" ∧ (none : Option User) = none) from
        fun hcon => hcon.1 hA)]
      rw [if_neg (show ¬¬ b.assignedUser = "" from fun hcon => hcon hA)]
      refine ⟨wf_append_task st _ hwf hfresh1, ?_⟩
      intro t' ht' u' hu' hmem
      rcases List.mem_append.mp ht' with ht' | ht'
      · exact hg t' ht' u' hu' hmem
      · rw [List.mem_singleton.mp ht'] at hmem
        exact absurd hmem (hfresh2 u' hu')
    · rw [if_neg hA]
      cases hfu : findUser st b.assignedUser with
      | none =>
        rw [if_pos ⟨hA, rfl⟩]
        exact ⟨hwf, hg⟩
      | some u0 =>
        rw [if_neg (show ¬(¬ b.assignedUser = "" ∧ (some u0 : Option User) = none) from
          fun hcon => Option.noConfusion hcon.2)]
        rw [if_pos hA]
        have hwf1 := wf_append_task st
          { id := fid, name := strTrim b.name, description := b.description,
            deadline := b.deadline.getD 0, completed := b.completed.getD false,
            assignedUser := b.assignedUser,
            assignedUserName := match (some u0 : Option User) with
              | some u => u.name
              | none => "unassigned" } hwf hfresh1
        by_cases hc : b.completed.getD false = false
        · rw [if_pos hc, addPending_eq]
          refine ⟨wf_users_map _ _ (fun u => by simp) hwf1, ?_⟩
          intro t' ht' u' hu' hmem
          obtain ⟨u, hu, rfl⟩ := List.mem_map.mp hu'
          rw [mem_ite_push] at hmem
          rcases List.mem_append.mp ht' with ht' | ht'
          · rcases hmem with hmem | ⟨-, hfid⟩
            · have := hg t' ht' u hu hmem
              simpa using this
            · exact absurd (hfid ▸ List.mem_map_of_mem Task.id ht') hfresh1
          · rw [List.mem_singleton.mp ht'] at hmem ⊢
            rcases hmem with hmem | ⟨⟨-, huid⟩, -⟩
            · exact absurd hmem (hfresh2 u hu)
            · simpa using ⟨huid.symm, hc⟩
        · rw [if_neg hc, removePending_eq]
          refine ⟨wf_users_map _ _ (fun u => by simp) hwf1, ?_⟩
          intro t' ht' u' hu' hmem
          obtain ⟨u, hu, rfl⟩ := List.mem_map.mp hu'
          rw [mem_ite_pull] at hmem
          rcases List.mem_append.mp ht' with ht' | ht'
          · have := hg t' ht' u hu hmem.1
            simpa using this
          · rw [List.mem_singleton.mp ht'] at hmem
            exact absurd hmem.1 (hfresh2 u hu)

theorem inv_taskDelete (st : St) (id : String) (hinv : InvSt st) :
    InvSt (taskDelete st id).2 := by
  obtain ⟨⟨hnt, hnu, hne⟩, hg⟩ := hinv
  unfold taskDelete
  cases hf : findTask st id with
  | none => exact ⟨⟨hnt, hnu, hne⟩, hg⟩
  | some t0 =>
    dsimp only
    have hwf1 : WfSt { st with tasks := st.tasks.filter (fun t => t.id != t0.id) } :=
      ⟨List.Nodup.sublist (List.Sublist.map _ (List.filter_sublist _)) hnt, hnu, hne⟩
    have hg1 : GoodSt { st with tasks := st.tasks.filter (fun t => t.id != t0.id) } :=
      fun t' ht' u' hu' hmem => hg t' (List.mem_of_mem_filter ht') u' hu' hmem
    by_cases hA : t0.assignedUser = ""
    · rw [if_neg (show ¬¬ t0.assignedUser = "" from fun hcon => hcon hA)]
      exact ⟨hwf1, hg1⟩
    · rw [if_pos hA, removePending_eq]
      refine ⟨wf_users_map _ _ (fun u => by simp) hwf1, ?_⟩
      intro t' ht' u' hu' hmem
      obtain ⟨u, hu, rfl⟩ := List.mem_map.mp hu'
      rw [mem_ite_pull] at hmem
      have := hg1 t' ht' u hu hmem.1
      simpa using this

theorem wf_removePendingFromUser (st : St) (uid tid : String) (h : WfSt st) :
    WfSt (removePendingFromUser st uid tid) := by
  rw [removePending_eq]
  exact wf_users_map st _ (fun u => by simp) h

theorem wf_addPendingToUser (st : St) (uid tid : String) (h : WfSt st) :
    WfSt (addPendingToUser st uid tid) := by
  rw [addPending_eq]
  exact wf_users_map st _ (fun u => by simp) h

theorem wf_saveTask (st : St) (t : Task) (h : WfSt st) : WfSt (saveTask st t) := by
  unfold saveTask
  refine wf_tasks_map st _ (fun x => ?_) h
  split
  · next hx => exact hx.symm
  · rfl

theorem wf_tuFinal (st : St) (t0 t2 : Task) (h : WfSt st) : WfSt (tuFinal st t0 t2) := by
  unfold tuFinal
  dsimp only
  repeat'
    first
    | apply wf_removePendingFromUser
    | apply wf_addPendingToUser
    | exact wf_saveTask st t2 h
    | split

theorem tasks_removePending (st : St) (uid tid : String) :
    (removePendingFromUser st uid tid).tasks = st.tasks := by
  rw [removePending_eq]

theorem tasks_addPending (st : St) (uid tid : String) :
    (addPendingToUser st uid tid).tasks = st.tasks := by
  rw [addPending_eq]

theorem tasks_tuFinal (st : St) (t0 t2 : Task) :
    (tuFinal st t0 t2).tasks = st.tasks.map (fun x => if x.id = t2.id then t2 else x) := by
  unfold tuFinal
  dsimp only
  repeat'
    first
    | rw [tasks_removePending]
    | rw [tasks_addPending]
    | split
  all_goals rfl

theorem userIds_removePending (st : St) (uid tid : String) :
    (removePendingFromUser st uid tid).users.map User.id = st.users.map User.id := by
  rw [removePending_eq]
  exact users_map_ids _ (fun u => by simp) _

theorem userIds_addPending (st : St) (uid tid : String) :
    (addPendingToUser st uid tid).users.map User.id = st.users.map User.id := by
  rw [addPending_eq]
  exact users_map_ids _ (fun u => by simp) _

theorem userIds_tuFinal (st : St) (t0 t2 : Task) :
    (tuFinal st t0 t2).users.map User.id = st.users.map User.id := by
  unfold tuFinal
  dsimp only
  repeat'
    first
    | rw [userIds_removePending]
    | rw [userIds_addPending]
    | split
  all_goals rfl

theorem good_pendingOf (st : St) (hg : GoodSt st) (t : Task) (ht : t ∈ st.tasks)
    (uid : String) (hmem : t.id ∈ pendingOf st uid) :
    t.assignedUser = uid ∧ t.completed = false := by
  unfold pendingOf at hmem
  cases hf : findUser st uid with
  | none => rw [hf] at hmem; simp at hmem
  | some u =>
    rw [hf] at hmem
    have := hg t ht u (List.mem_of_find?_eq_some hf) hmem
    rwa [findUser_some_id st uid u hf] at this

theorem find?_eq_some_of_mem_nodup (l : List User) (hnu : (l.map User.id).Nodup)
    (u : User) (hu : u ∈ l) :
    l.find? (fun v => v.id == u.id) = some u := by
  cases hf : l.find? (fun v => v.id == u.id) with
  | none =>
    rw [List.find?_eq_none] at hf
    exact absurd (by simp) (hf u hu)
  | some v =>
    have hv : v ∈ l := List.mem_of_find?_eq_some hf
    have hvid : v.id = u.id := by simpa using List.find?_some hf
    rw [List.inj_on_of_nodup_map hnu hv hu hvid]

theorem mem_pending_iff_pendingOf (st : St) (hnu : (st.users.map User.id).Nodup)
    (u : User) (hu : u ∈ st.users) (z : String) :
    z ∈ u.pendingTasks ↔ z ∈ pendingOf st u.id := by
  unfold pendingOf findUser
  rw [find?_eq_some_of_mem_nodup st.users hnu u hu]

theorem findUser_isSome_addPending (st : St) (uid tid x : String) :
    (findUser (addPendingToUser st uid tid) x).isSome = (findUser st x).isSome := by
  rw [addPending_eq]
  unfold findUser
  rw [find?_map_of_id _ (fun u => by simp) _ _]
  cases st.users.find? (fun u => u.id == x) <;> rfl

theorem mem_pendingOf_ite_remove (c : Prop) [Decidable c] (s : St) (uid tid x z : String) :
    z ∈ pendingOf (if c then removePendingFromUser s uid tid else s) x ↔
      (z ∈ pendingOf s x ∧ ¬(c ∧ ¬ uid = "" ∧ x = uid ∧ z = tid)) := by
  split
  · next h => rw [mem_pendingOf_removePending]; tauto
  · next h => tauto

theorem mem_pendingOf_tuFinal (st : St) (t0 t2 : Task) (uid z : String) :
    z ∈ pendingOf (tuFinal st t0 t2) uid ↔
      (if z = t2.id then
        (if ¬ t2.assignedUser = "" ∧ uid = t2.assignedUser then
            t2.completed = false ∧ (z ∈ pendingOf st uid ∨ (findUser st uid).isSome = true)
         else if ¬ t0.assignedUser = "" ∧ uid = t0.assignedUser then False
         else z ∈ pendingOf st uid)
       else z ∈ pendingOf st uid) := by
  unfold tuFinal
  dsimp only
  by_cases hz : z = t2.id
  · by_cases hO : t2.assignedUser = "" <;>
    by_cases hu1 : uid = t2.assignedUser <;>
    by_cases hc : t2.completed = false <;>
    by_cases hA : t0.assignedUser = "" <;>
    by_cases hu2 : uid = t0.assignedUser <;>
    by_cases hE : t0.assignedUser = t2.assignedUser <;>
    by_cases hpc : t0.completed = false <;>
      (simp [hz, hO, hu1, hc, hA, hu2, hE, hpc, mem_pendingOf_addPending,
        mem_pendingOf_removePending, findUser_isSome_removePending, findUser_isSome_addPending,
        pendingOf_saveTask, findUser_saveTask]
       try tauto
       try exact absurd (hE.symm.trans hA) hO
       try simp [show ¬ ("" = t2.assignedUser) from fun e => hO e.symm])
  · by_cases hO : t2.assignedUser = "" <;>
    by_cases hc : t2.completed = false <;>
    by_cases hA : t0.assignedUser = "" <;>
    by_cases hE : t0.assignedUser = t2.assignedUser <;>
    by_cases hpc : t0.completed = false <;>
      (simp [hz, hO, hc, hA, hE, hpc, mem_pendingOf_addPending,
        mem_pendingOf_removePending, pendingOf_saveTask]
       try tauto)

theorem good_tuFinal (st : St) (t0 t2 : Task) (hinv : InvSt st)
    (h02 : t0.id = t2.id) (h0 : t0 ∈ st.tasks) :
    GoodSt (tuFinal st t0 t2) := by
  obtain ⟨⟨hnt, hnu, hne⟩, hg⟩ := hinv
  intro t ht u hu hmem
  have hnuF : ((tuFinal st t0 t2).users.map User.id).Nodup := by
    rw [userIds_tuFinal]; exact hnu
  have hmemP : t.id ∈ pendingOf (tuFinal st t0 t2) u.id :=
    (mem_pending_iff_pendingOf _ hnuF u hu t.id).mp hmem
  have huid : u.id ≠ "" := by
    have hu2 : u.id ∈ (tuFinal st t0 t2).users.map User.id := List.mem_map_of_mem User.id hu
    rw [userIds_tuFinal] at hu2
    obtain ⟨v, hv, hvid⟩ := List.mem_map.mp hu2
    exact hvid ▸ hne v hv
  rw [mem_pendingOf_tuFinal] at hmemP
  rw [tasks_tuFinal] at ht
  obtain ⟨x, hx, hxt⟩ := List.mem_map.mp ht
  by_cases hcase : x.id = t2.id
  · rw [if_pos hcase] at hxt
    subst hxt
    rw [if_pos rfl] at hmemP
    split at hmemP
    · next hcnd => exact ⟨hcnd.2.symm, hmemP.1⟩
    · next hcnd =>
      split at hmemP
      · exact hmemP.elim
      · next hcnd2 =>
        rw [← h02] at hmemP
        obtain ⟨hass, -⟩ := good_pendingOf st hg t0 h0 u.id hmemP
        exact absurd ⟨fun hAe => huid (hass ▸ hAe), hass.symm⟩ hcnd2
  · rw [if_neg hcase] at hxt
    subst hxt
    rw [if_neg hcase] at hmemP
    exact good_pendingOf st hg x hx u.id hmemP

theorem inv_tuFinal (st : St) (t0 t2 : Task) (hinv : InvSt st)
    (h02 : t0.id = t2.id) (h0 : t0 ∈ st.tasks) :
    InvSt (tuFinal st t0 t2) :=
  ⟨wf_tuFinal st t0 t2 hinv.1, good_tuFinal st t0 t2 hinv h02 h0⟩

theorem inv_taskUpdate (st : St) (id : String) (b : TaskInput) (hinv : InvSt st) :
    InvSt (taskUpdate st id b).2 := by
  by_cases hv : strTrim b.name = "" ∨ b.deadline = none
  · unfold taskUpdate
    rw [if_pos hv]
    exact hinv
  · cases hfound : findTask st id with
    | none =>
      unfold taskUpdate
      rw [if_neg hv, hfound]
      exact hinv
    | some task =>
      have h0 : task ∈ st.tasks := List.mem_of_find?_eq_some hfound
      by_cases hA : b.assignedUser = ""
      · rw [taskUpdate_success_eq st id b (fun h => hv (Or.inl h)) (fun h => hv (Or.inr h))
          task hfound "" "unassigned" (by rw [if_pos hA])]
        exact inv_tuFinal st task _ hinv rfl h0
      · cases hfu : findUser st b.assignedUser with
        | none =>
          unfold taskUpdate
          rw [if_neg hv, hfound]
          dsimp only
          rw [if_neg hA, hfu]
          exact hinv
        | some u0 =>
          rw [taskUpdate_success_eq st id b (fun h => hv (Or.inl h)) (fun h => hv (Or.inr h))
            task hfound u0.id u0.name (by rw [if_neg hA, hfu]; rfl)]
          exact inv_tuFinal st task _ hinv rfl h0

theorem foldl_claimT_eq (uid uname : String) (l : List Task)
    (hl : (l.map Task.id).Nodup) (x : Task) :
    l.foldl (fun a t => claimTaskT uid uname t a) x =
      (match l.find? (fun t => t.id == x.id) with
       | some t => claimTaskOf uid uname t
       | none => x) :=
  foldl_replace_eq (claimTaskOf uid uname) (fun _ => rfl) l hl x

theorem wf_ucFinal (st : St) (fid : String) (b : UserInput) (hwf : WfSt st)
    (hne0 : fid ≠ "") (hfresh : fid ∉ st.users.map User.id) :
    WfSt (ucFinal st fid b) := by
  obtain ⟨hnt, hnu, hne3⟩ := hwf
  unfold ucFinal
  dsimp only
  refine ⟨?_, ?_, ?_⟩
  · rw [tasks_map_ids _ (fun t => foldl_taskStep_id _
      (fun x a => claimTaskT_id fid (strTrim b.name) x a) _ t) st.tasks]
    exact hnt
  · rw [users_map_ids _ (fun u => foldl_userStep_id _
      (fun t v => claimUserT_id fid t v) _ u) _, List.map_append]
    exact nodup_append_singleton _ _ hnu (by simpa using hfresh)
  · intro u hu
    obtain ⟨v, hv, rfl⟩ := List.mem_map.mp hu
    rw [foldl_userStep_id _ (fun t w => claimUserT_id fid t w) _ v]
    rcases List.mem_append.mp hv with hv | hv
    · exact hne3 v hv
    · rw [List.mem_singleton.mp hv]
      exact hne0

theorem good_ucFinal (st : St) (fid : String) (b : UserInput) (hinv : InvSt st) :
    GoodSt (ucFinal st fid b) := by
  obtain ⟨⟨hnt, hnu, hne3⟩, hg⟩ := hinv
  unfold ucFinal
  dsimp only
  intro t' ht' u' hu' hmem
  obtain ⟨x, hx, rfl⟩ := List.mem_map.mp ht'
  obtain ⟨v, hv, rfl⟩ := List.mem_map.mp hu'
  have hclnd := nodup_filter_map_id st.tasks
    (fun t => (b.pendingTasks.getD []).contains t.id) hnt
  rw [foldl_taskStep_id (fun t a => claimTaskT fid (strTrim b.name) t a)
    (fun t a => claimTaskT_id fid (strTrim b.name) t a) _ x] at hmem
  rw [mem_foldl_claimU fid _ hclnd v x.id] at hmem
  rw [foldl_userStep_id (claimUserT fid) (fun t w => claimUserT_id fid t w) _ v]
  rw [foldl_claimT_eq fid (strTrim b.name) _ hclnd x]
  cases hfind : (st.tasks.filter
      (fun t => (b.pendingTasks.getD []).contains t.id)).find? (fun t => t.id == x.id) with
  | none =>
    rw [hfind] at hmem
    rcases List.mem_append.mp hv with hv | hv
    · exact hg x hx v hv hmem
    · rw [List.mem_singleton.mp hv] at hmem
      exact absurd hmem (List.not_mem_nil x.id)
  | some t =>
    rw [hfind] at hmem
    dsimp only at hmem
    have ht : t ∈ st.tasks :=
      List.mem_of_mem_filter (List.mem_of_find?_eq_some hfind)
    have htx : t = x :=
      List.inj_on_of_nodup_map hnt ht hx (by simpa using List.find?_some hfind)
    subst htx
    by_cases h1 : fid ≠ "" ∧ v.id = fid
    · rw [if_pos h1] at hmem
      exact ⟨h1.2.symm, hmem⟩
    · rw [if_neg h1] at hmem
      by_cases h2 : t.assignedUser ≠ "" ∧ t.assignedUser ≠ fid ∧ v.id = t.assignedUser
      · rw [if_pos h2] at hmem
        exact hmem.elim
      · rw [if_neg h2] at hmem
        rcases List.mem_append.mp hv with hv | hv
        · have hgx := hg t ht v hv hmem
          have hA : t.assignedUser = fid := by
            by_contra hq
            exact h2 ⟨fun h0 => hne3 v hv (hgx.1 ▸ h0), hq, hgx.1.symm⟩
          have hvf : v.id = fid := hgx.1.symm.trans hA
          have hfe : fid = "" := by
            by_contra hq
            exact h1 ⟨hq, hvf⟩
          exact absurd (hvf.trans hfe) (hne3 v hv)
        · rw [List.mem_singleton.mp hv] at hmem
          exact absurd hmem (List.not_mem_nil t.id)

theorem inv_userCreate (st : St) (fid : String) (b : UserInput) (hinv : InvSt st)
    (hne0 : fid ≠ "") (hfresh : fid ∉ st.users.map User.id) :
    InvSt (userCreate st fid b).2 := by
  by_cases hv : strTrim b.name = "" ∨ strLower (strTrim b.email) = ""
  · unfold userCreate
    rw [if_pos hv]
    exact hinv
  · cases hdupe : st.users.find? (fun u => u.email == strLower (strTrim b.email)) with
    | some d =>
      unfold userCreate
      rw [if_neg hv, hdupe]
      split
      · exact hinv
      · next hcon => exact absurd rfl hcon
    | none =>
      rw [userCreate_success_eq st fid b (fun h => hv (Or.inl h)) (fun h => hv (Or.inr h)) hdupe]
      exact ⟨wf_ucFinal st fid b hinv.1 hne0 hfresh, good_ucFinal st fid b hinv⟩

theorem foldl_unassignT_eq (l : List Task) (hl : (l.map Task.id).Nodup) (x : Task) :
    l.foldl (fun a t => unassignTaskT t a) x =
      (match l.find? (fun t => t.id == x.id) with
       | some t => unassignTaskOf t
       | none => x) :=
  foldl_replace_eq unassignTaskOf (fun _ => rfl) l hl x

theorem wf_udFinal (st : St) (u0 : User) (hwf : WfSt st) : WfSt (udFinal st u0) := by
  obtain ⟨hnt, hnu, hne3⟩ := hwf
  unfold udFinal
  dsimp only
  refine ⟨?_, ?_, ?_⟩
  · rw [tasks_map_ids _ (fun t => foldl_taskStep_id _
      (fun x a => unassignTaskT_id x a) _ t) st.tasks]
    exact hnt
  · exact List.Nodup.sublist (List.Sublist.map _ (List.filter_sublist _)) hnu
  · intro u hu
    exact hne3 u (List.mem_of_mem_filter hu)

theorem good_udFinal (st : St) (u0 : User) (hinv : InvSt st) (hu0 : u0 ∈ st.users) :
    GoodSt (udFinal st u0) := by
  obtain ⟨⟨hnt, hnu, hne3⟩, hg⟩ := hinv
  unfold udFinal
  dsimp only
  intro t' ht' u' hu' hmem
  obtain ⟨x, hx, rfl⟩ := List.mem_map.mp ht'
  have hu'mem : u' ∈ st.users := List.mem_of_mem_filter hu'
  have hclnd := nodup_filter_map_id st.tasks (fun t => u0.pendingTasks.contains t.id) hnt
  rw [foldl_taskStep_id (fun t a => unassignTaskT t a)
    (fun t a => unassignTaskT_id t a) _ x] at hmem
  rw [foldl_unassignT_eq _ hclnd x]
  cases hfind : (st.tasks.filter (fun t => u0.pendingTasks.contains t.id)).find?
      (fun t => t.id == x.id) with
  | none => exact hg x hx u' hu'mem hmem
  | some t =>
    have htf := List.mem_of_find?_eq_some hfind
    have ht : t ∈ st.tasks := List.mem_of_mem_filter htf
    have htx : t = x :=
      List.inj_on_of_nodup_map hnt ht hx (by simpa using List.find?_some hfind)
    subst htx
    have hpend : t.id ∈ u0.pendingTasks := by
      have := (List.mem_filter.mp htf).2
      simpa using this
    have h1 := hg t ht u0 hu0 hpend
    have h2 := hg t ht u' hu'mem hmem
    have hneq : u'.id ≠ u0.id := by
      have := (List.mem_filter.mp hu').2
      simpa using this
    exact absurd (h1.1.symm.trans h2.1).symm hneq

theorem inv_userDelete (st : St) (id : String) (hinv : InvSt st) :
    InvSt (userDelete st id).2 := by
  cases hfound : findUser st id with
  | none =>
    unfold userDelete
    rw [hfound]
    exact hinv
  | some u0 =>
    rw [userDelete_success_eq st id u0 hfound]
    exact ⟨wf_udFinal st u0 hinv.1,
      good_udFinal st u0 hinv (List.mem_of_find?_eq_some hfound)⟩

theorem find?_filter_self (l : List Task) (p : Task → Bool) (hl : (l.map Task.id).Nodup)
    (x : Task) (hx : x ∈ l) :
    (l.filter p).find? (fun t => t.id == x.id) = if p x = true then some x else none := by
  cases hfind : (l.filter p).find? (fun t => t.id == x.id) with
  | none =>
    rw [List.find?_eq_none] at hfind
    by_cases hp : p x = true
    · exact absurd (by simp) (hfind x (List.mem_filter.mpr ⟨hx, hp⟩))
    · rw [if_neg hp]
  | some t =>
    have htf := List.mem_of_find?_eq_some hfind
    have ht : t ∈ l := List.mem_of_mem_filter htf
    have htx : t = x :=
      List.inj_on_of_nodup_map hl ht hx (by simpa using List.find?_some hfind)
    subst htx
    rw [if_pos (List.mem_filter.mp htf).2]

theorem wf_uuFinal (st : St) (b : UserInput) (u0 : User) (hwf : WfSt st) :
    WfSt (uuFinal st b u0) := by
  obtain ⟨hnt, hnu, hne3⟩ := hwf
  unfold uuFinal
  dsimp only
  refine ⟨?_, ?_, ?_⟩
  · rw [tasks_map_ids _ (fun t => foldl_taskStep_id _
      (fun s a => claimTaskT_id u0.id (strTrim b.name) s a) _ t) _]
    rw [tasks_map_ids _ (fun t => foldl_taskStep_id _
      (fun s a => unassignTaskT_id s a) _ t) _]
    exact hnt
  · rw [users_map_ids _ (fun u => by split <;> rfl) _]
    rw [users_map_ids _ (fun u => foldl_userStep_id _
      (fun t w => claimUserT_id u0.id t w) _ u) _]
    rw [users_map_ids _ (fun u => foldl_userStep_id _
      (fun t w => unassignUserT_id u0.id t w) _ u) _]
    exact hnu
  · intro u hu
    obtain ⟨w1, hw1, rfl⟩ := List.mem_map.mp hu
    obtain ⟨w2, hw2, rfl⟩ := List.mem_map.mp hw1
    obtain ⟨v, hv, rfl⟩ := List.mem_map.mp hw2
    have h1 : ∀ w : User, (if w.id = u0.id then
        { w with
          name := strTrim b.name, email := strLower (strTrim b.email),
          pendingTasks := b.pendingTasks.getD [] } else w).id = w.id := fun w => by
      split <;> rfl
    rw [h1]
    rw [foldl_userStep_id _ (fun t w => claimUserT_id u0.id t w) _ _]
    rw [foldl_userStep_id _ (fun t w => unassignUserT_id u0.id t w) _ v]
    exact hne3 v hv

theorem good_uuFinal (st : St) (b : UserInput) (u0 : User) (hinv : InvSt st)
    (hu0 : u0 ∈ st.users)
    (hok : ∀ t ∈ st.tasks, t.id ∈ b.pendingTasks.getD [] → t.completed = false) :
    GoodSt (uuFinal st b u0) := by
  obtain ⟨⟨hnt, hnu, hne3⟩, hg⟩ := hinv
  unfold uuFinal
  dsimp only
  intro t' ht' u' hu' hmem
  obtain ⟨y, hy, rfl⟩ := List.mem_map.mp ht'
  obtain ⟨x, hx, rfl⟩ := List.mem_map.mp hy
  obtain ⟨w1, hw1, rfl⟩ := List.mem_map.mp hu'
  obtain ⟨w2, hw2, rfl⟩ := List.mem_map.mp hw1
  obtain ⟨v, hv, rfl⟩ := List.mem_map.mp hw2
  set NP := b.pendingTasks.getD [] with hNPdef
  set TR := u0.pendingTasks.filter (fun tid => !(NP.contains tid)) with hTRdef
  set TA := NP.filter (fun tid => !(u0.pendingTasks.contains tid)) with hTAdef
  set RT := st.tasks.filter (fun t => TR.contains t.id) with hRTdef
  set AT := (st.tasks.map (fun a => List.foldl (fun a s => unassignTaskT s a) a RT)).filter
      (fun t => TA.contains t.id) with hATdef
  have hRTnd : (RT.map Task.id).Nodup := by
    rw [hRTdef]; exact nodup_filter_map_id _ _ hnt
  have hmapnd : ((st.tasks.map (fun a => List.foldl (fun a s => unassignTaskT s a) a RT)).map
      Task.id).Nodup := by
    rw [tasks_map_ids _ (fun t => foldl_taskStep_id _ (fun s a => unassignTaskT_id s a) _ t) _]
    exact hnt
  have hATnd : (AT.map Task.id).Nodup := by
    rw [hATdef]; exact nodup_filter_map_id _ _ hmapnd
  have hreId : (List.foldl (fun a s => unassignTaskT s a) x RT).id = x.id :=
    foldl_taskStep_id _ (fun s a => unassignTaskT_id s a) RT x
  have htId : (List.foldl (fun a s => claimTaskT u0.id (strTrim b.name) s a)
      (List.foldl (fun a s => unassignTaskT s a) x RT) AT).id = x.id :=
    (foldl_taskStep_id _ (fun s a => claimTaskT_id u0.id (strTrim b.name) s a) AT _).trans hreId
  have hwId : (List.foldl (fun a s => claimUserT u0.id s a)
      (List.foldl (fun a s => unassignUserT u0.id s a) v RT) AT).id = v.id :=
    (foldl_userStep_id _ (fun t u => claimUserT_id u0.id t u) AT _).trans
      (foldl_userStep_id _ (fun t u => unassignUserT_id u0.id t u) RT v)
  have hfRT : RT.find? (fun t => t.id == x.id) =
      (if TR.contains x.id = true then some x else none) := by
    rw [hRTdef]
    exact find?_filter_self st.tasks _ hnt x hx
  have hremx : List.foldl (fun a s => unassignTaskT s a) x RT =
      (if TR.contains x.id = true then unassignTaskOf x else x) := by
    rw [foldl_unassignT_eq RT hRTnd x, hfRT]
    by_cases hp : TR.contains x.id = true
    · rw [if_pos hp, if_pos hp]
    · rw [if_neg hp, if_neg hp]
  have hfAT : AT.find? (fun t => t.id == x.id) =
      (if TA.contains x.id = true then
        some (List.foldl (fun a s => unassignTaskT s a) x RT) else none) := by
    have h1 := find?_filter_self
      (st.tasks.map (fun a => List.foldl (fun a s => unassignTaskT s a) a RT))
      (fun t => TA.contains t.id) hmapnd _ (List.mem_map_of_mem _ hx)
    dsimp only at h1
    rw [hreId] at h1
    rw [hATdef]
    exact h1
  have hremU : ¬ v.id = u0.id →
      (x.id ∈ (List.foldl (fun a s => unassignUserT u0.id s a) v RT).pendingTasks ↔
        x.id ∈ v.pendingTasks) := by
    intro hvne
    rw [mem_foldl_unassignU u0.id RT hRTnd v x.id]
    cases hf : RT.find? (fun t => t.id == x.id) with
    | none => exact Iff.rfl
    | some t =>
      rw [if_neg (show ¬(u0.id ≠ "" ∧ v.id = u0.id) from fun hc => hvne hc.2)]
  rw [htId] at hmem
  rw [hwId] at hmem ⊢
  by_cases hvu : v.id = u0.id
  · rw [if_pos hvu] at hmem ⊢
    dsimp only at hmem ⊢
    have hcompx := hok x hx hmem
    rw [foldl_claimT_eq u0.id (strTrim b.name) AT hATnd _, hreId, hfAT]
    by_cases hAdd : TA.contains x.id = true
    · rw [if_pos hAdd]
      dsimp only
      refine ⟨hvu.symm, ?_⟩
      show (List.foldl (fun a s => unassignTaskT s a) x RT).completed = false
      rw [hremx]
      split
      · exact hcompx
      · exact hcompx
    · rw [if_neg hAdd]
      dsimp only
      have hxmem0 : x.id ∈ u0.pendingTasks := by
        by_contra hq
        refine hAdd ?_
        have hmemTA : x.id ∈ NP.filter (fun tid => !(u0.pendingTasks.contains tid)) :=
          List.mem_filter.mpr ⟨hmem, by simpa using hq⟩
        rw [hTAdef]
        simpa using hmemTA
      have hRemF : ¬ TR.contains x.id = true := by
        intro hq
        rw [hTRdef] at hq
        have hmemTR : x.id ∈ u0.pendingTasks.filter (fun tid => !(NP.contains tid)) := by
          simpa using hq
        have hcnd := (List.mem_filter.mp hmemTR).2
        simp at hcnd
        exact hcnd hmem
      rw [hremx, if_neg hRemF]
      have hgu := hg x hx u0 hu0 hxmem0
      exact ⟨hgu.1.trans hvu.symm, hgu.2⟩
  · rw [if_neg hvu] at hmem ⊢
    rw [hwId]
    rw [mem_foldl_claimU u0.id AT hATnd _ x.id] at hmem
    rw [hfAT] at hmem
    rw [foldl_claimT_eq u0.id (strTrim b.name) AT hATnd _, hreId, hfAT]
    by_cases hAdd : TA.contains x.id = true
    · rw [if_pos hAdd] at hmem ⊢
      dsimp only at hmem ⊢
      rw [foldl_userStep_id _ (fun t u => unassignUserT_id u0.id t u) RT v] at hmem
      rw [if_neg (show ¬(u0.id ≠ "" ∧ v.id = u0.id) from fun hc => hvu hc.2)] at hmem
      rw [hremx] at hmem
      by_cases hRem : TR.contains x.id = true
      · rw [if_pos hRem] at hmem
        rw [if_neg (show ¬((unassignTaskOf x).assignedUser ≠ "" ∧
            (unassignTaskOf x).assignedUser ≠ u0.id ∧
            v.id = (unassignTaskOf x).assignedUser) from fun hc => hc.1 rfl)] at hmem
        have hxv : x.id ∈ v.pendingTasks := (hremU hvu).mp hmem
        have h1 := hg x hx v hv hxv
        have hxmem0 : x.id ∈ u0.pendingTasks := by
          rw [hTRdef] at hRem
          have h3 : x.id ∈ u0.pendingTasks ∧ x.id ∉ NP := by simpa using hRem
          exact h3.1
        have h2 := hg x hx u0 hu0 hxmem0
        exact absurd (h1.1.symm.trans h2.1) hvu
      · rw [if_neg hRem] at hmem
        by_cases hcond : x.assignedUser ≠ "" ∧ x.assignedUser ≠ u0.id ∧ v.id = x.assignedUser
        · rw [if_pos hcond] at hmem
          exact hmem.elim
        · rw [if_neg hcond] at hmem
          have hxv : x.id ∈ v.pendingTasks := (hremU hvu).mp hmem
          have h1 := hg x hx v hv hxv
          refine absurd ⟨fun h0 => hne3 v hv (h1.1 ▸ h0), ?_, h1.1.symm⟩ hcond
          intro hq
          exact hvu (h1.1.symm.trans hq)
    · rw [if_neg hAdd] at hmem ⊢
      dsimp only at hmem ⊢
      have hxv : x.id ∈ v.pendingTasks := (hremU hvu).mp hmem
      have h1 := hg x hx v hv hxv
      rw [hremx]
      by_cases hRem : TR.contains x.id = true
      · have hxmem0 : x.id ∈ u0.pendingTasks := by
          rw [hTRdef] at hRem
          have h3 : x.id ∈ u0.pendingTasks ∧ x.id ∉ NP := by simpa using hRem
          exact h3.1
        have h2 := hg x hx u0 hu0 hxmem0
        exact absurd (h1.1.symm.trans h2.1) hvu
      · rw [if_neg hRem]
        exact h1

theorem inv_userUpdate (st : St) (id : String) (b : UserInput) (hinv : InvSt st)
    (hok : ∀ t ∈ st.tasks, t.id ∈ b.pendingTasks.getD [] → t.completed = false) :
    InvSt (userUpdate st id b).2 := by
  by_cases hv : strTrim b.name = "" ∨ strLower (strTrim b.email) = ""
  · unfold userUpdate
    rw [if_pos hv]
    exact hinv
  · cases hfound : findUser st id with
    | none =>
      unfold userUpdate
      rw [if_neg hv, hfound]
      exact hinv
    | some u0 =>
      cases hdupe : (match st.users.find? (fun u => u.email == strLower (strTrim b.email)) with
        | some d => d.id != u0.id
        | none => false) with
      | true =>
        unfold userUpdate
        rw [if_neg hv, hfound]
        dsimp only
        rw [hdupe]
        exact hinv
      | false =>
        rw [userUpdate_success_eq st id b (fun h => hv (Or.inl h)) (fun h => hv (Or.inr h))
          u0 hfound hdupe]
        exact ⟨wf_uuFinal st b u0 hinv.1,
          good_uuFinal st b u0 hinv (List.mem_of_find?_eq_some hfound) hok⟩

theorem inv_applyMut (st : St) (m : Mut) (hinv : InvSt st) (hok : mutOK st m) :
    InvSt (applyMut st m) := by
  cases m with
  | tCreate fid b => exact inv_taskCreate st fid b hinv hok.1 hok.2
  | tUpdate id b => exact inv_taskUpdate st id b hinv
  | tDelete id => exact inv_taskDelete st id hinv
  | uCreate fid b => exact inv_userCreate st fid b hinv hok.1 hok.2
  | uUpdate id b => exact inv_userUpdate st id b hinv hok
  | uDelete id => exact inv_userDelete st id hinv

theorem inv_applySeq (st : St) (ms : List Mut) (hinv : InvSt st) (hok : okSeq st ms) :
    InvSt (applySeq st ms) := by
  induction ms generalizing st with
  | nil => exact hinv
  | cons m ms ih => exact ih (applyMut st m) (inv_applyMut st m hinv hok.1) hok.2

/-- Counterexample to the universal reading of claim C1, exactly at its "in
particular" case: on the invariant-satisfying example store, the user update
requesting the pending list `["t1", "t2"]` — which names the completed task
`t1` — succeeds with a 200 response and persists that list verbatim, so the
resulting state violates I2: the completed task `t1` sits in Alice's
pending set. -/
theorem C1_counterexample :
    InvSt exSt ∧
    (userUpdate exSt "u1" exC1Input).1 =
      Resp.ok
        { id := "u1", name := "Alice", email := "alice@example.com",
          pendingTasks := ["t1", "t2"] } ∧
    ¬ I2 (userUpdate exSt "u1" exC1Input).2 := by decide

/-- Claim C1 (amended): starting from a state satisfying the combined store
invariant, after every completed mutation sequence whose store-generated
identifiers are fresh and whose user updates do not request a pending list
naming an existing completed task, invariant I2 holds: every task that is
unassigned or completed is absent from every user's pending set.  The side
condition on user updates cannot be dropped: a successful user update whose
requested pending list names an existing completed task persists that
identifier verbatim and ends in a state violating I2. -/
theorem C1_i2_mutation_sequences (st : St) (ms : List Mut)
    (hinv : InvSt st) (hok : okSeq st ms) :
    I2 (applySeq st ms) :=
  invSt_i2 _ (inv_applySeq st ms hinv hok)

/-- Witness for C1: the example store satisfies the invariant, the example
six-operation mutation sequence satisfies every side condition, and I2
holds in the final state. -/
theorem C1_i2_mutation_sequences_witness :
    InvSt exSt ∧ okSeq exSt exC1Muts ∧ I2 (applySeq exSt exC1Muts) :=
  ⟨by decide, by decide, C1_i2_mutation_sequences exSt exC1Muts (by decide) (by decide)⟩

end TaskUserApp
